import Mathlib

/-!
Shallow embedding of the APP-List media tracker's library engine, sharing
codec and search-caller logic (src/App.tsx, current revision at the top of
the file; data model from src/types.ts, current revision), together with
proofs about the behaviour of those operations.

JavaScript strings are modelled by Lean `String`; `jsTrim` and
`jsToLower` model `trim()` and `toLowerCase()`; `crypto.randomUUID()`
and `new Date().toISOString()` are modelled by explicit `freshId` / `now`
parameters, since the code only ever treats them as opaque strings.
-/

/-- Media type enumeration (src/types.ts `ItemType`). -/
inductive ItemType
  | BOOK
  | MOVIE
  | GAME
deriving DecidableEq

/-- Item status enumeration (src/types.ts `ItemStatus`). -/
inductive ItemStatus
  | WANT_TO
  | IN_PROGRESS
  | COMPLETED
deriving DecidableEq

/-- A memory attachment (src/types.ts `Memory`). -/
structure Memory where
  id : String
  imageData : String
  caption : String
  sourceLocation : Option String
  addedAt : String
deriving DecidableEq

/-- A tracked media item (src/types.ts `MediaItem`).  JavaScript `number`
ratings are modelled by `Int`; optional fields by `Option`. -/
structure MediaItem where
  id : String
  title : String
  originalTitle : Option String
  type : ItemType
  creator : String
  year : String
  description : String
  status : ItemStatus
  rating : Option Int
  review : Option String
  memories : List Memory
  addedAt : String
  collectionIds : List String
  coverUrl : Option String
  collaborators : Option (List String)
deriving DecidableEq

/-- A user-authored collection (src/types.ts `UserCollection`). -/
structure UserCollection where
  id : String
  title : String
  description : Option String
  type : ItemType
  createdAt : String
deriving DecidableEq

/-- A search candidate descriptor (src/types.ts `SearchResult`). -/
structure SearchResult where
  title : String
  type : ItemType
  creator : String
  year : String
  description : String
deriving DecidableEq

/-- An entry of `SharedCollectionPayload.items` (src/types.ts
`Partial<MediaItem>`), restricted to the fields the sharing codec reads and
writes; every field is optional exactly as `Partial` makes it. -/
structure SharedItemDesc where
  title : Option String
  type : Option ItemType
  creator : Option String
  year : Option String
  description : Option String
  coverUrl : Option String
deriving DecidableEq

/-- A shared collection payload (src/types.ts `SharedCollectionPayload`). -/
structure SharedCollectionPayload where
  title : String
  type : ItemType
  sharer : Option String
  items : List SharedItemDesc
deriving DecidableEq

/-- A shared single-item edit payload (src/types.ts `SharedItemPayload`). -/
structure SharedItemPayload where
  item : MediaItem
  sharer : String
deriving DecidableEq

/-- JavaScript `String.prototype.trim`, modelled on the character list
(whitespace stripped from both ends). -/
def jsTrim (s : String) : String :=
  ⟨((s.data.dropWhile Char.isWhitespace).reverse.dropWhile Char.isWhitespace).reverse⟩

/-- JavaScript `String.prototype.toLowerCase`, modelled as character-wise
lowercasing. -/
def jsToLower (s : String) : String :=
  ⟨s.data.map Char.toLower⟩

/-- JavaScript `x || d` on an optional string: `undefined` and the empty
string are both falsy and fall back to the default. -/
def jsOrElse (o : Option String) (d : String) : String :=
  match o with
  | none => d
  | some s => if s = "" then d else s

/-- Result of `handleCreateCollection` (src/App.tsx lines 1001-1023): the
returned id (the sentinel `null` is `none`), the updated collection list,
and the list of toast messages emitted during the call. -/
structure CreateResult where
  newId : Option String
  collections : List UserCollection
  toasts : List String
deriving DecidableEq

/-- Library engine `createCollection` (src/App.tsx `handleCreateCollection`,
lines 1001-1023).  Trims the title; returns `none` without touching state if
the trimmed title is empty; shows an error toast and returns `none` if a
same-type collection with a case-insensitively equal title exists; otherwise
appends a fresh collection and returns its id. -/
def handleCreateCollection (title description : String) (itemType : ItemType)
    (freshId now : String) (userCollections : List UserCollection) : CreateResult :=
  let trimmedTitle := jsTrim title
  if trimmedTitle = "" then
    ⟨none, userCollections, []⟩
  else if userCollections.any
      (fun c => c.type == itemType && jsToLower c.title == jsToLower trimmedTitle) then
    ⟨none, userCollections, ["A collection with this name already exists."]⟩
  else
    ⟨some freshId,
     userCollections ++ [⟨freshId, trimmedTitle, some description, itemType, now⟩],
     []⟩

/-- Library engine `deleteCollection` (src/App.tsx `handleDeleteCollection`,
lines 1025-1036): strips the collection id from every item's membership set
and removes the collection itself; returns the updated item and collection
lists. -/
def handleDeleteCollection (collectionId : String) (items : List MediaItem)
    (userCollections : List UserCollection) : List MediaItem × List UserCollection :=
  (items.map (fun item =>
      { item with collectionIds := item.collectionIds.filter (fun id => id != collectionId) }),
   userCollections.filter (fun c => c.id != collectionId))

/-- Does a library item match a search result's (title, creator, type)
triple?  (the predicate inside src/App.tsx `handleRemoveFromSearch`,
lines 978-980). -/
def matchesResult (result : SearchResult) (i : MediaItem) : Bool :=
  i.title == result.title && i.creator == result.creator && i.type == result.type

/-- The `Remove` action on an added search result (src/App.tsx
`handleRemoveFromSearch`, lines 978-980): filters out every item whose
title, creator and type all equal the result's. -/
def handleRemoveFromSearch (result : SearchResult) (items : List MediaItem) :
    List MediaItem :=
  items.filter (fun i => !(matchesResult result i))

/-- Library engine `addItem` (src/App.tsx `addToLibrary`, lines 966-976):
prepends a fresh item seeded from the search result with wish-listed status,
empty memories and membership `[collectionId]` when given, else empty. -/
def addToLibrary (result : SearchResult) (collectionId : Option String)
    (freshId now : String) (items : List MediaItem) : List MediaItem :=
  { id := freshId, title := result.title, originalTitle := none,
    type := result.type, creator := result.creator, year := result.year,
    description := result.description, status := .WANT_TO, rating := none,
    review := none, memories := [], addedAt := now,
    collectionIds := match collectionId with | some c => [c] | none => [],
    coverUrl := none, collaborators := none } :: items

/-- Library engine `updateItem` (src/App.tsx `handleUpdateItem`, lines
982-987): full in-place replacement of the item matching the payload's id;
a no-op when the id is not found. -/
def handleUpdateItem (updated : MediaItem) (items : List MediaItem) : List MediaItem :=
  items.map (fun i => if i.id == updated.id then updated else i)

/-- Library engine `deleteItem` (src/App.tsx `handleDeleteItem`,
lines 989-992). -/
def handleDeleteItem (id : String) (items : List MediaItem) : List MediaItem :=
  items.filter (fun i => i.id != id)

/-- Library engine `setItemCollections` (src/App.tsx
`handleItemCollectionUpdate`, lines 994-999): full replacement of one item's
membership set. -/
def handleItemCollectionUpdate (itemId : String) (collectionIds : List String)
    (items : List MediaItem) : List MediaItem :=
  items.map (fun i => if i.id == itemId then { i with collectionIds := collectionIds } else i)

/-- JavaScript `Array.from(new Set(xs))`: deduplicate keeping the first
occurrence of each element, preserving insertion order. -/
def jsSetOfList : List String → List String
  | [] => []
  | x :: xs => x :: (jsSetOfList xs).filter (fun y => y != x)

/-- JavaScript `Array.prototype.findIndex`: index of the first element
satisfying the predicate (`-1`, modelled as `none`, when there is none). -/
def jsFindIndex (p : α → Bool) : List α → Option Nat
  | [] => none
  | x :: xs => if p x then some 0 else (jsFindIndex p xs).map (· + 1)

/-- There is already a collection of type `itemType` whose title equals `s`
case-insensitively (the duplicate check of `handleCreateCollection`,
src/App.tsx line 1006). -/
def dupTitle (cols : List UserCollection) (itemType : ItemType) (s : String) : Prop :=
  ∃ c ∈ cols, c.type = itemType ∧ jsToLower c.title = jsToLower s

instance (cols : List UserCollection) (itemType : ItemType) (s : String) :
    Decidable (dupTitle cols itemType s) := by
  unfold dupTitle; infer_instance

/-- The collection-title invariant: no two collections of the same type have
case-insensitively equal titles. -/
def ciUnique (cols : List UserCollection) : Prop :=
  cols.Pairwise (fun c₁ c₂ => c₁.type = c₂.type → jsToLower c₁.title ≠ jsToLower c₂.title)

instance (cols : List UserCollection) : Decidable (ciUnique cols) := by
  unfold ciUnique; infer_instance

/-- The updated item built by src/App.tsx `handleAcceptEdit` (lines
1299-1306): the payload's item with the sharer's name added to its
collaborator set (JS `Set` semantics). -/
def acceptEditUpdatedItem (payload : SharedItemPayload) : MediaItem :=
  let collabs := jsSetOfList ((payload.item.collaborators.getD []) ++ [payload.sharer])
  { payload.item with collaborators := some collabs }

/-- Sharing codec `acceptItemEdit` (src/App.tsx `handleAcceptEdit`, lines
1296-1327): if an item with the payload's id exists, replace the first such
item in place; otherwise prepend the updated item as new. -/
def handleAcceptEdit (payload : SharedItemPayload) (items : List MediaItem) :
    List MediaItem :=
  let updatedItem := acceptEditUpdatedItem payload
  match jsFindIndex (fun i => i.id == payload.item.id) items with
  | some k => items.set k updatedItem
  | none => updatedItem :: items

/-- Does a library item match a shared item descriptor on identical
(title, creator, type)?  (the predicate inside `items.find` in src/App.tsx
`handleImportCollection`, lines 1248-1252; a JS `===` comparison against an
absent `Partial` field is false). -/
def matchesShared (p : SharedItemDesc) (i : MediaItem) : Bool :=
  p.title == some i.title && p.creator == some i.creator && p.type == some i.type

/-- One call of `handleItemCollectionUpdate` made from the matched branch of
`handleImportCollection` (src/App.tsx lines 1254-1257): every item with the
matched item's id gets membership `ex.collectionIds ++ [newId]` (computed
from the matched item as found in the pre-import library). -/
def linkExisting (newId : String) (ex : MediaItem) (cur : List MediaItem) :
    List MediaItem :=
  cur.map (fun i =>
    if i.id == ex.id then { i with collectionIds := ex.collectionIds ++ [newId] } else i)

/-- The fresh `MediaItem` created for an unmatched incoming descriptor
(src/App.tsx lines 1259-1272): seeded from the shared descriptor (JS `||`
falls back on absent or empty fields), wish-listed, empty memories, current
timestamp and membership limited to the new collection. -/
def newItemOfShared (p : SharedItemDesc) (payloadType : ItemType)
    (newId freshId now : String) : MediaItem :=
  { id := freshId, title := jsOrElse p.title "Unknown", originalTitle := none,
    type := p.type.getD payloadType, creator := jsOrElse p.creator "Unknown",
    year := jsOrElse p.year "", description := jsOrElse p.description "",
    status := .WANT_TO, rating := none, review := none, memories := [],
    addedAt := now, collectionIds := [newId], coverUrl := p.coverUrl,
    collaborators := none }

/-- The `payload.items.forEach` loop of `handleImportCollection`
(src/App.tsx lines 1244-1275), threading the evolving item list `cur`, the
accumulated `newItems` and the count `k` of fresh ids consumed.  `find`
always searches the pre-import library `origItems`, exactly as the closure
in the source does. -/
def importItemsGo (origItems : List MediaItem) (payloadType : ItemType)
    (newId : String) (gen : Nat → String) (now : String) :
    List SharedItemDesc → List MediaItem → List MediaItem → Nat →
    List MediaItem × List MediaItem × Nat
  | [], cur, newAcc, k => (cur, newAcc, k)
  | p :: ps, cur, newAcc, k =>
    match origItems.find? (matchesShared p) with
    | some ex =>
        importItemsGo origItems payloadType newId gen now ps
          (linkExisting newId ex cur) newAcc k
    | none =>
        importItemsGo origItems payloadType newId gen now ps cur
          (newAcc ++ [newItemOfShared p payloadType newId (gen k) now]) (k + 1)

/-- The item-list part of `handleImportCollection` (src/App.tsx lines
1244-1279): process every incoming descriptor, then prepend the newly
created items to the (link-updated) library. -/
def importItems (origItems : List MediaItem) (payload : SharedCollectionPayload)
    (newId : String) (gen : Nat → String) (now : String) : List MediaItem :=
  let r := importItemsGo origItems payload.type newId gen now payload.items origItems [] 0
  r.2.1 ++ r.1

/-- The base display title for an imported collection (src/App.tsx line
1229): appends `(Shared by X)` when a sharer name is present (an empty
sharer string is falsy in JS), else `(Imported)`. -/
def importTitleBase (payload : SharedCollectionPayload) : String :=
  payload.title ++ " " ++
    (match payload.sharer with
     | some s => if s = "" then "(Imported)" else "(Shared by " ++ s ++ ")"
     | none => "(Imported)")

/-- The duplicate-title `while` loop of `handleImportCollection`
(src/App.tsx lines 1230-1237), embedded with explicit fuel (the source loop
terminates because the candidate titles are pairwise distinct and the
collection list is finite; `importTitle` supplies fuel sufficient for
that pigeonhole argument). -/
def importTitleLoop (cols : List UserCollection) (ptype : ItemType) (base : String) :
    Nat → String → Nat → String
  | 0, titleToUse, _ => titleToUse
  | fuel + 1, titleToUse, counter =>
    if cols.any (fun c => c.type == ptype && jsToLower c.title == jsToLower titleToUse) then
      importTitleLoop cols ptype base fuel (base ++ " (" ++ toString counter ++ ")")
        (counter + 1)
    else titleToUse

/-- The non-colliding display title `handleImportCollection` resolves
(src/App.tsx lines 1228-1237). -/
def importTitle (cols : List UserCollection) (payload : SharedCollectionPayload) :
    String :=
  importTitleLoop cols payload.type (importTitleBase payload) (cols.length + 1)
    (importTitleBase payload) 1

/-- The library engine state owned by the App component: the media item list
and the user collection list. -/
structure AppState where
  items : List MediaItem
  userCollections : List UserCollection
deriving DecidableEq

/-- Sharing codec `importCollection` (src/App.tsx `handleImportCollection`,
lines 1227-1294): resolve a non-colliding title, create the collection
through `handleCreateCollection` (aborting, state unchanged, if that returns
the sentinel), then link or create each incoming item. -/
def handleImportCollection (payload : SharedCollectionPayload) (freshColId : String)
    (gen : Nat → String) (now : String) (st : AppState) : AppState :=
  let titleToUse := importTitle st.userCollections payload
  let r := handleCreateCollection titleToUse "" payload.type freshColId now
    st.userCollections
  match r.newId with
  | none => st
  | some newId =>
      { items := importItems st.items payload newId gen now,
        userCollections := r.collections }

/-- Repeated application of `handleImportCollection` with the same payload,
with per-iteration fresh ids and timestamps (iteration `n` applies
the import `n` times). -/
def iterateImport (payload : SharedCollectionPayload) (fc : Nat → String)
    (gen : Nat → Nat → String) (now : Nat → String) : Nat → AppState → AppState
  | 0, st => st
  | n + 1, st =>
      iterateImport payload fc gen now n
        (handleImportCollection payload (fc n) (gen n) (now n) st)

/-- Collection `renameOrReDescribe` (src/App.tsx `handleSaveCollection`,
lines 1044-1067): same duplicate-title validation as creation, excluding the
collection's own record; state unchanged on failure. -/
def handleSaveCollection (activeCollectionId : String) (activeType : ItemType)
    (editCollectionTitle editCollectionDesc : String)
    (userCollections : List UserCollection) : List UserCollection :=
  let trimmedTitle := jsTrim editCollectionTitle
  if trimmedTitle = "" then userCollections
  else if userCollections.any (fun c =>
      c.type == activeType && c.id != activeCollectionId &&
      jsToLower c.title == jsToLower trimmedTitle) then
    userCollections
  else
    userCollections.map (fun c =>
      if c.id == activeCollectionId then
        { c with title := trimmedTitle, description := some editCollectionDesc }
      else c)

/-- Batch status assignment (src/App.tsx `handleBatchStatus`, lines
1375-1385). -/
def handleBatchStatus (selectedIds : List String) (status : ItemStatus)
    (items : List MediaItem) : List MediaItem :=
  items.map (fun item =>
    if selectedIds.contains item.id then { item with status := status } else item)

/-- Batch delete in the unscoped library view (src/App.tsx
`handleBatchDelete`, lines 1366-1370): permanent deletion. -/
def handleBatchDeleteLibrary (selectedIds : List String) (items : List MediaItem) :
    List MediaItem :=
  items.filter (fun item => !(selectedIds.contains item.id))

/-- Batch delete inside a collection view (src/App.tsx `handleBatchDelete`,
lines 1354-1365): removal from the current collection only. -/
def handleBatchRemoveFromCollection (selectedIds : List String)
    (activeCollectionId : String) (items : List MediaItem) : List MediaItem :=
  items.map (fun item =>
    if selectedIds.contains item.id then
      { item with collectionIds := item.collectionIds.filter (fun id => id != activeCollectionId) }
    else item)

/-- A library engine operation together with its arguments (the synchronous
state-mutating handlers of src/App.tsx); id-generating operations carry
their fresh ids explicitly. -/
inductive Op
  | addItem (result : SearchResult) (collectionId : Option String) (freshId now : String)
  | updateItem (updated : MediaItem)
  | deleteItem (id : String)
  | itemCollectionUpdate (itemId : String) (collectionIds : List String)
  | createCollection (title description : String) (itemType : ItemType) (freshId now : String)
  | deleteCollection (id : String)
  | importCollection (payload : SharedCollectionPayload) (freshColId : String)
      (gen : Nat → String) (now : String)
  | acceptEdit (payload : SharedItemPayload)
  | removeFromSearch (result : SearchResult)
  | batchStatus (selectedIds : List String) (status : ItemStatus)
  | batchDeleteLibrary (selectedIds : List String)
  | batchRemoveFromCollection (selectedIds : List String) (activeCollectionId : String)
  | saveCollection (activeCollectionId : String) (activeType : ItemType)
      (newTitle newDesc : String)

/-- Apply one library engine operation to the app state (dispatch to the
corresponding src/App.tsx handler). -/
def applyOp : Op → AppState → AppState
  | .addItem result collectionId freshId now, st =>
      { st with items := addToLibrary result collectionId freshId now st.items }
  | .updateItem updated, st => { st with items := handleUpdateItem updated st.items }
  | .deleteItem id, st => { st with items := handleDeleteItem id st.items }
  | .itemCollectionUpdate itemId colIds, st =>
      { st with items := handleItemCollectionUpdate itemId colIds st.items }
  | .createCollection title description itemType freshId now, st =>
      { st with userCollections :=
          (handleCreateCollection title description itemType freshId now
            st.userCollections).collections }
  | .deleteCollection id, st =>
      let r := handleDeleteCollection id st.items st.userCollections
      { items := r.1, userCollections := r.2 }
  | .importCollection payload freshColId gen now, st =>
      handleImportCollection payload freshColId gen now st
  | .acceptEdit payload, st => { st with items := handleAcceptEdit payload st.items }
  | .removeFromSearch result, st =>
      { st with items := handleRemoveFromSearch result st.items }
  | .batchStatus selectedIds status, st =>
      { st with items := handleBatchStatus selectedIds status st.items }
  | .batchDeleteLibrary selectedIds, st =>
      { st with items := handleBatchDeleteLibrary selectedIds st.items }
  | .batchRemoveFromCollection selectedIds activeCollectionId, st =>
      { st with items := handleBatchRemoveFromCollection selectedIds activeCollectionId st.items }
  | .saveCollection activeCollectionId activeType newTitle newDesc, st =>
      { st with userCollections :=
          (handleSaveCollection activeCollectionId activeType newTitle newDesc
            st.userCollections) }

/-- The side conditions under which an operation's arguments respect the
data model's typing discipline: full-item-payload operations (`updateItem`,
`acceptItemEdit`) carry the same type as the stored item of that id — as
every in-app caller, which copies the stored item, does — and item-creating
operations use ids not already present in the library. -/
def typeSafeArgs : Op → AppState → Prop
  | .updateItem u, st => ∀ i ∈ st.items, i.id = u.id → i.type = u.type
  | .acceptEdit p, st => ∀ i ∈ st.items, i.id = p.item.id → i.type = p.item.type
  | .addItem _ _ freshId _, st => ∀ i ∈ st.items, i.id ≠ freshId
  | .importCollection _ _ gen _, st => ∀ k, ∀ i ∈ st.items, i.id ≠ gen k
  | _, _ => True

/-- Sort key selector of the library view (src/App.tsx `sortCriteria`
state). -/
inductive SortCriteria
  | DATE
  | TITLE
  | RATING
deriving DecidableEq

/-- Sort direction of the library view (src/App.tsx `sortOrder` state). -/
inductive SortOrder
  | ASC
  | DESC
deriving DecidableEq

/-- The `comparison` value of the comparator in src/App.tsx `getSortedItems`
(lines 1393-1409).  The environment functions `String.localeCompare` and
`new Date(·).getTime()` are parameters `localeCompare` / `parseDate`: the
code only consumes their `Int` results. -/
def itemComparison (localeCompare : String → String → Int) (parseDate : String → Int)
    (sortCriteria : SortCriteria) (a b : MediaItem) : Int :=
  match sortCriteria with
  | .DATE => parseDate a.addedAt - parseDate b.addedAt
  | .TITLE => localeCompare a.title b.title
  | .RATING => a.rating.getD 0 - b.rating.getD 0

/-- The full comparator passed to `Array.prototype.sort` in `getSortedItems`:
the criterion comparison, negated for descending order. -/
def sortComparator (localeCompare : String → String → Int) (parseDate : String → Int)
    (sortCriteria : SortCriteria) (sortOrder : SortOrder) (a b : MediaItem) : Int :=
  let comparison := itemComparison localeCompare parseDate sortCriteria a b
  match sortOrder with
  | .ASC => comparison
  | .DESC => -comparison

/-- src/App.tsx `getSortedItems` (lines 1393-1409):
`[...items].sort(comparator)`.  ECMAScript `Array.prototype.sort` is
specified to produce a stable sort consistent with the comparator; it is
modelled by the stable `List.insertionSort` on the relation
`comparator a b ≤ 0`. -/
def getSortedItems (localeCompare : String → String → Int) (parseDate : String → Int)
    (sortCriteria : SortCriteria) (sortOrder : SortOrder) (items : List MediaItem) :
    List MediaItem :=
  List.insertionSort
    (fun a b => sortComparator localeCompare parseDate sortCriteria sortOrder a b ≤ 0)
    items

/-- One in-flight search request of the search caller (src/App.tsx
`handleSearch`, lines 925-956, together with the offline stub `searchMedia`
of services/geminiService.ts): its query, whether its abort controller has
been aborted, and whether its promise has settled. -/
structure SearchReq where
  query : String
  aborted : Bool
  done : Bool
deriving DecidableEq

/-- The component state touched by the search flow: the requests issued so
far (`abortControllerRef` identifies one of them by index), the `loading`
flag, and which request's results `searchResults` currently holds (`none`
models the cleared `{matches: [], similar: []}`; the stub's payload is a
function of the request, so provenance determines content). -/
structure SearchUIState where
  reqs : List SearchReq
  current : Option Nat
  loading : Bool
  results : Option Nat
deriving DecidableEq

/-- Events of the single-threaded search flow: a `handleSearch` submission
(its synchronous prefix runs atomically), the asynchronous resolution or
rejection of request `i`, and `handleStopSearch`. -/
inductive SearchEv
  | start (query : String)
  | resolve (i : Nat)
  | reject (i : Nat)
  | stop
deriving DecidableEq

/-- Abort the controller of request `c` (JS `AbortController.abort()`). -/
def abortAt (reqs : List SearchReq) (c : Nat) : List SearchReq :=
  match reqs.get? c with
  | some r => reqs.set c { r with aborted := true }
  | none => reqs

/-- Interleaving semantics of the search caller wired to the offline stub
adapter.  `start`: src/App.tsx lines 925-939 — return early on a blank
query, abort the previous controller BEFORE creating the new one, set
loading and clear the previous results.  `resolve`: lines 942-943 and the
`finally` block 950-955 — the stub never resolves an aborted request (its
timer is cleared and the promise rejected on abort), `setSearchResults` is
unconditional, and only the `finally` cleanup compares
`abortControllerRef.current === controller`.  `reject`: the catch path —
the stub rejects exactly the aborted requests; nothing is stored.  `stop`:
`handleStopSearch`, lines 958-964. -/
def searchStep (s : SearchUIState) : SearchEv → SearchUIState
  | .start query =>
    if jsTrim query = "" then s
    else
      let reqs :=
        match s.current with
        | some c => abortAt s.reqs c
        | none => s.reqs
      { reqs := reqs ++ [⟨query, false, false⟩],
        current := some s.reqs.length,
        loading := true,
        results := none }
  | .resolve i =>
    match s.reqs.get? i with
    | some r =>
      if r.aborted || r.done then s
      else
        { reqs := s.reqs.set i { r with done := true },
          current := if s.current = some i then none else s.current,
          loading := if s.current = some i then false else s.loading,
          results := some i }
    | none => s
  | .reject i =>
    match s.reqs.get? i with
    | some r =>
      if r.aborted && !r.done then
        { reqs := s.reqs.set i { r with done := true },
          current := if s.current = some i then none else s.current,
          loading := if s.current = some i then false else s.loading,
          results := s.results }
      else s
    | none => s
  | .stop =>
    match s.current with
    | some c =>
      { reqs := abortAt s.reqs c, current := none, loading := false,
        results := s.results }
    | none => s

/-- The same caller wired to the repository's generative-service variant of
`searchMedia`, whose signature takes no abort signal, so an aborted request
can still resolve: identical to `searchStep` except that `resolve` ignores
the aborted flag, exactly as `setSearchResults(results)` on line 943 runs
whenever the promise resolves. -/
def searchStepU (s : SearchUIState) : SearchEv → SearchUIState
  | .resolve i =>
    match s.reqs.get? i with
    | some r =>
      if r.done then s
      else
        { reqs := s.reqs.set i { r with done := true },
          current := if s.current = some i then none else s.current,
          loading := if s.current = some i then false else s.loading,
          results := some i }
    | none => s
  | ev => searchStep s ev

/-- The initial search state: no requests, nothing in flight, results
cleared. -/
def initSearchState : SearchUIState := ⟨[], none, false, none⟩

/-- Run a trace of search events from the initial state (stub adapter). -/
def runSearch (evs : List SearchEv) : SearchUIState :=
  evs.foldl searchStep initSearchState

/-- Run a trace of search events from the initial state (generative-service
adapter that ignores the abort signal). -/
def runSearchU (evs : List SearchEv) : SearchUIState :=
  evs.foldl searchStepU initSearchState

/-- Is an event a new `handleSearch` submission? -/
def isStartEv : SearchEv → Bool
  | .start _ => true
  | _ => false

/-- A concrete library item used in concrete evaluations. -/
def itemEx : MediaItem :=
  ⟨"a", "Dune", none, .BOOK, "Frank Herbert", "1965", "", .WANT_TO, none, none,
   [], "t0", [], none, none⟩

/-- `itemEx` with its type changed to `MOVIE`, as a full-replacement
`updateItem` payload. -/
def itemExMovie : MediaItem := { itemEx with type := .MOVIE }

/-- Analysis helper for `importItems`: the effect on one pre-import library
item of the link updates performed for the matched ids `ids` (each matched
item's membership set gains `newId`, computed from its pre-import value). -/
def applyLinked (newId : String) (ids : List String) (i : MediaItem) : MediaItem :=
  if i.id ∈ ids then { i with collectionIds := i.collectionIds ++ [newId] } else i

/-- Analysis helper: the ids of the pre-import library items matched by the
processed descriptors, in processing order. -/
def linkedIds (origItems : List MediaItem) (ps : List SharedItemDesc) : List String :=
  ps.filterMap (fun p => (origItems.find? (matchesShared p)).map (fun i => i.id))

/-- Analysis helper: the fresh items created for the unmatched descriptors,
in processing order, with `k` the index of the next fresh id. -/
def createdList (origItems : List MediaItem) (payloadType : ItemType) (newId : String)
    (gen : Nat → String) (now : String) : List SharedItemDesc → Nat → List MediaItem
  | [], _ => []
  | p :: ps, k =>
    match origItems.find? (matchesShared p) with
    | some _ => createdList origItems payloadType newId gen now ps k
    | none =>
        newItemOfShared p payloadType newId (gen k) now ::
          createdList origItems payloadType newId gen now ps (k + 1)

/-- Invariant of the search flow under the stub adapter: the tracked
in-flight controller is always the most recently issued request, every
unaborted unsettled request is the tracked one, and the stored results
always come from the most recently issued request. -/
def searchInv (s : SearchUIState) : Prop :=
  (∀ c, s.current = some c → c + 1 = s.reqs.length) ∧
  (∀ j r, s.reqs.get? j = some r → r.aborted = false → r.done = false →
    s.current = some j) ∧
  (∀ j, s.results = some j → j + 1 = s.reqs.length)

/-- The spec's example incoming shared descriptor: Dune by Frank Herbert. -/
def duneDesc : SharedItemDesc :=
  ⟨some "Dune", some .BOOK, some "Frank Herbert", some "1965", some "desc", none⟩


/-- JSON value universe needed by the sharing codec's payloads: strings,
arrays and objects.  `JSON.stringify` of a `SharedCollectionPayload` emits
no numbers, booleans or nulls — every leaf the codec writes is a string. -/
inductive Json
  | str (s : List Char)
  | arr (elems : List Json)
  | obj (fields : List (List Char × Json))

/-- Lowercase hex digit, as `JSON.stringify` emits in `\u00XX` escapes. -/
def hexDigitLower (n : Nat) : Char := "0123456789abcdef".data.getD n '0'

/-- Uppercase hex digit, as `encodeURIComponent` emits in `%XX` escapes. -/
def hexDigitUpper (n : Nat) : Char := "0123456789ABCDEF".data.getD n '0'

/-- Hex digit value (both cases, as `JSON.parse` and `decodeURIComponent`
accept). -/
def ofHexDigit (c : Char) : Option Nat :=
  if 48 ≤ c.toNat ∧ c.toNat ≤ 57 then some (c.toNat - 48)
  else if 97 ≤ c.toNat ∧ c.toNat ≤ 102 then some (c.toNat - 87)
  else if 65 ≤ c.toNat ∧ c.toNat ≤ 70 then some (c.toNat - 55)
  else none

/-- The escape sequence `JSON.stringify` produces for one character inside a
string literal: `\"`, `\\`, the short control escapes, `\u00XX` for the
remaining control characters, and the character itself otherwise. -/
def escapeChar (c : Char) : List Char :=
  if c = '"' then ['\\', '"']
  else if c = '\\' then ['\\', '\\']
  else if c = '\x08' then ['\\', 'b']
  else if c = '\x09' then ['\\', 't']
  else if c = '\x0a' then ['\\', 'n']
  else if c = '\x0c' then ['\\', 'f']
  else if c = '\x0d' then ['\\', 'r']
  else if c.toNat < 32 then
    ['\\', 'u', '0', '0', hexDigitLower (c.toNat / 16), hexDigitLower (c.toNat % 16)]
  else [c]

/-- `JSON.stringify` escaping of a whole string body. -/
def escapeStr : List Char → List Char
  | [] => []
  | c :: cs => escapeChar c ++ escapeStr cs

mutual

/-- `JSON.stringify` (no indentation — as the codec calls it) restricted to
the string/array/object universe, producing the exact character stream. -/
def Json.render : Json → List Char
  | .str s => '"' :: (escapeStr s ++ ['"'])
  | .arr elems => '[' :: (renderElems elems ++ [']'])
  | .obj fields => '\x7b' :: (renderFields fields ++ ['\x7d'])

/-- Comma-separated rendering of array elements. -/
def renderElems : List Json → List Char
  | [] => []
  | [j] => j.render
  | j :: j' :: rest => j.render ++ ',' :: renderElems (j' :: rest)

/-- Comma-separated rendering of object fields (`"key":value`). -/
def renderFields : List (List Char × Json) → List Char
  | [] => []
  | [(k, v)] => '"' :: (escapeStr k ++ '"' :: ':' :: v.render)
  | (k, v) :: f :: rest =>
      ('"' :: (escapeStr k ++ '"' :: ':' :: v.render)) ++ ',' :: renderFields (f :: rest)

end

mutual

/-- Size measure for the parser's fuel: one unit per value plus one per
container element. -/
def Json.size : Json → Nat
  | .str _ => 1
  | .arr elems => 1 + sizeElems elems
  | .obj fields => 1 + sizeFields fields

/-- Size measure of an element list. -/
def sizeElems : List Json → Nat
  | [] => 0
  | j :: rest => 1 + j.size + sizeElems rest

/-- Size measure of a field list. -/
def sizeFields : List (List Char × Json) → Nat
  | [] => 0
  | (_, v) :: rest => 1 + v.size + sizeFields rest

end

mutual

/-- `JSON.parse` of the four hex digits and remainder of a `\uXXXX`
escape. -/
def parseStrU : List Char → Option (List Char × List Char)
  | a :: b :: c :: d :: rest =>
    match ofHexDigit a, ofHexDigit b, ofHexDigit c, ofHexDigit d with
    | some x, some y, some z, some w =>
        if Nat.isValidChar (x * 4096 + y * 256 + z * 16 + w) then
          (parseStrBody rest).map
            (fun p => (Char.ofNat (x * 4096 + y * 256 + z * 16 + w) :: p.1, p.2))
        else none
    | _, _, _, _ => none
  | _ => none

/-- `JSON.parse` of the character after a backslash in a string literal. -/
def parseStrEsc : List Char → Option (List Char × List Char)
  | [] => none
  | e :: rest =>
    if e = '"' then (parseStrBody rest).map (fun p => ('"' :: p.1, p.2))
    else if e = '\\' then (parseStrBody rest).map (fun p => ('\\' :: p.1, p.2))
    else if e = '/' then (parseStrBody rest).map (fun p => ('/' :: p.1, p.2))
    else if e = 'b' then (parseStrBody rest).map (fun p => ('\x08' :: p.1, p.2))
    else if e = 'f' then (parseStrBody rest).map (fun p => ('\x0c' :: p.1, p.2))
    else if e = 'n' then (parseStrBody rest).map (fun p => ('\x0a' :: p.1, p.2))
    else if e = 'r' then (parseStrBody rest).map (fun p => ('\x0d' :: p.1, p.2))
    else if e = 't' then (parseStrBody rest).map (fun p => ('\x09' :: p.1, p.2))
    else if e = 'u' then parseStrU rest
    else none

/-- `JSON.parse` of a string literal body (after the opening quote):
literal characters up to the closing quote, with the standard JSON
escapes. -/
def parseStrBody : List Char → Option (List Char × List Char)
  | [] => none
  | c :: rest =>
    if c = '"' then some ([], rest)
    else if c = '\\' then parseStrEsc rest
    else (parseStrBody rest).map (fun p => (c :: p.1, p.2))

end

mutual

/-- Recursive-descent `JSON.parse` over the string/array/object universe,
with explicit fuel (decremented at every recursive call; `Json.parse`
supplies enough for any input).  It consumes exactly the whitespace-free
form `JSON.stringify` produces, which is the codec's entire domain. -/
def parseValue : Nat → List Char → Option (Json × List Char)
  | 0, _ => none
  | fuel + 1, s =>
    match s with
    | [] => none
    | c :: rest =>
      if c = '"' then (parseStrBody rest).map (fun p => (Json.str p.1, p.2))
      else if c = '[' then parseArr fuel rest
      else if c = '\x7b' then parseObj fuel rest
      else none
termination_by fuel s => (fuel, 0)

/-- Parse the remainder of an array after `[`. -/
def parseArr : Nat → List Char → Option (Json × List Char)
  | _, [] => none
  | fuel, c :: rest =>
    if c = ']' then some (.arr [], rest)
    else (parseElems fuel (c :: rest)).map (fun p => (Json.arr p.1, p.2))
termination_by fuel s => (fuel, 2)

/-- Parse the remainder of an object after the opening brace. -/
def parseObj : Nat → List Char → Option (Json × List Char)
  | _, [] => none
  | fuel, c :: rest =>
    if c = '\x7d' then some (.obj [], rest)
    else (parseFields fuel (c :: rest)).map (fun p => (Json.obj p.1, p.2))
termination_by fuel s => (fuel, 2)

/-- Parse one-or-more comma-separated array elements up to `]`. -/
def parseElems : Nat → List Char → Option (List Json × List Char)
  | 0, _ => none
  | fuel + 1, s =>
    match parseValue fuel s with
    | none => none
    | some (j, r) => parseElemsSep fuel j r
termination_by fuel s => (fuel, 1)

/-- Parse the separator after an array element: `,` continues, `]` ends. -/
def parseElemsSep : Nat → Json → List Char → Option (List Json × List Char)
  | _, _, [] => none
  | fuel, j, c :: r =>
    if c = ',' then (parseElems fuel r).map (fun p => (j :: p.1, p.2))
    else if c = ']' then some ([j], r)
    else none
termination_by fuel j s => (fuel, 2)

/-- Parse one-or-more comma-separated object fields up to the closing
brace. -/
def parseFields : Nat → List Char → Option (List (List Char × Json) × List Char)
  | 0, _ => none
  | fuel + 1, s =>
    match s with
    | [] => none
    | c :: rest =>
      if c = '"' then
        match parseStrBody rest with
        | none => none
        | some (k, r) => parseFieldSep fuel k r
      else none
termination_by fuel s => (fuel, 1)

/-- Parse the `:` and value of an object field after its key. -/
def parseFieldSep : Nat → List Char → List Char →
    Option (List (List Char × Json) × List Char)
  | _, _, [] => none
  | fuel, k, c :: r =>
    if c = ':' then
      match parseValue fuel r with
      | none => none
      | some (v, r2) => parseFieldsSep fuel k v r2
    else none
termination_by fuel k s => (fuel, 3)

/-- Parse the separator after an object field: `,` continues, the closing
brace ends. -/
def parseFieldsSep : Nat → List Char → Json → List Char →
    Option (List (List Char × Json) × List Char)
  | _, _, _, [] => none
  | fuel, k, v, c :: r =>
    if c = ',' then (parseFields fuel r).map (fun p => ((k, v) :: p.1, p.2))
    else if c = '\x7d' then some ([(k, v)], r)
    else none
termination_by fuel k v s => (fuel, 2)

end

/-- `JSON.parse`: parse a complete value, requiring full consumption. -/
def Json.parse (s : List Char) : Option Json :=
  match parseValue (s.length + 1) s with
  | some (j, r) => if r = [] then some j else none
  | none => none

/-- Association lookup among an object's fields, first match wins (JS
property access on a parsed object). -/
def lookupFields : List (List Char × Json) → List Char → Option Json
  | [], _ => none
  | (k, v) :: rest, key => if k = key then some v else lookupFields rest key

/-- JS property access `json[key]` on a decoded payload. -/
def Json.lookup : Json → String → Option Json
  | .obj fields, key => lookupFields fields key.data
  | _, _ => none

/-- Characters `encodeURIComponent` leaves unescaped:
`A-Z a-z 0-9 - _ . ! ~ * ' ( )`. -/
def isUnreservedURI (c : Char) : Bool :=
  (65 ≤ c.toNat && c.toNat ≤ 90) || (97 ≤ c.toNat && c.toNat ≤ 122) ||
    (48 ≤ c.toNat && c.toNat ≤ 57) || c.toNat == 45 || c.toNat == 95 ||
    c.toNat == 46 || c.toNat == 33 || c.toNat == 126 || c.toNat == 42 ||
    c.toNat == 39 || c.toNat == 40 || c.toNat == 41

/-- UTF-8 encoding of one scalar value. -/
def utf8EncodeChar (c : Char) : List Nat :=
  if c.toNat < 128 then [c.toNat]
  else if c.toNat < 2048 then [192 + c.toNat / 64, 128 + c.toNat % 64]
  else if c.toNat < 65536 then
    [224 + c.toNat / 4096, 128 + c.toNat / 64 % 64, 128 + c.toNat % 64]
  else
    [240 + c.toNat / 262144, 128 + c.toNat / 4096 % 64, 128 + c.toNat / 64 % 64,
      128 + c.toNat % 64]

/-- UTF-8 encoding of a character sequence. -/
def utf8Encode : List Char → List Nat
  | [] => []
  | c :: cs => utf8EncodeChar c ++ utf8Encode cs

/-- Decode one UTF-8-encoded scalar value from the front of a byte
sequence: the scalar and the remaining bytes (on the codec's domain — byte
runs produced by `utf8Encode`). -/
def utf8DecodeStep (b : Nat) (bs : List Nat) : Option (Nat × List Nat) :=
  if b < 128 then some (b, bs)
  else if b < 192 then none
  else if b < 224 then
    match bs with
    | b2 :: bs' =>
      if 128 ≤ b2 ∧ b2 < 192 then some ((b - 192) * 64 + (b2 - 128), bs') else none
    | [] => none
  else if b < 240 then
    match bs with
    | b2 :: b3 :: bs' =>
      if (128 ≤ b2 ∧ b2 < 192) ∧ (128 ≤ b3 ∧ b3 < 192) then
        some ((b - 224) * 4096 + (b2 - 128) * 64 + (b3 - 128), bs')
      else none
    | _ => none
  else if b < 248 then
    match bs with
    | b2 :: b3 :: b4 :: bs' =>
      if (128 ≤ b2 ∧ b2 < 192) ∧ (128 ≤ b3 ∧ b3 < 192) ∧ (128 ≤ b4 ∧ b4 < 192) then
        some ((b - 240) * 262144 + (b2 - 128) * 4096 + (b3 - 128) * 64 + (b4 - 128), bs')
      else none
    | _ => none
  else none

/-- UTF-8 decoding of a byte sequence, with fuel bounding the number of
decoded characters (`utf8Decode` supplies enough for any input). -/
def utf8DecodeFuel : Nat → List Nat → Option (List Char)
  | 0, _ => none
  | _ + 1, [] => some []
  | fuel + 1, b :: bs =>
    match utf8DecodeStep b bs with
    | some (n, bs') => (utf8DecodeFuel fuel bs').map (fun cs => Char.ofNat n :: cs)
    | none => none

/-- UTF-8 decoding of a byte sequence. -/
def utf8Decode (bs : List Nat) : Option (List Char) :=
  utf8DecodeFuel (bs.length + 1) bs

/-- The `%XX` escapes for a run of bytes. -/
def percentBytes : List Nat → List Char
  | [] => []
  | b :: bs => '%' :: hexDigitUpper (b / 16) :: hexDigitUpper (b % 16) :: percentBytes bs

/-- `encodeURIComponent`: unreserved characters stand for themselves, every
other character contributes the `%XX` escapes of its UTF-8 bytes. -/
def encodeURIComponent : List Char → List Char
  | [] => []
  | c :: cs =>
    (if isUnreservedURI c then [c] else percentBytes (utf8EncodeChar c)) ++
      encodeURIComponent cs

/-! First phase of `decodeURIComponent`: turn the percent-string into the
byte sequence it denotes (`%XX` escapes to their byte, literal ASCII
characters to their code; defined on the ASCII strings the encoder emits). -/

mutual

/-- First phase of `decodeURIComponent`, continued: consume the two hex
digits of a `%XX` escape. -/
def percentEscBytes : List Char → Option (List Nat)
  | h :: l :: rest =>
    match ofHexDigit h, ofHexDigit l with
    | some hv, some lv => (percentToBytes rest).map (fun bs => (hv * 16 + lv) :: bs)
    | _, _ => none
  | _ => none

/-- First phase of `decodeURIComponent` (see module doc above). -/
def percentToBytes : List Char → Option (List Nat)
  | [] => some []
  | c :: rest =>
    if c = '%' then percentEscBytes rest
    else if c.toNat < 128 then (percentToBytes rest).map (fun bs => c.toNat :: bs)
    else none

end

/-- `decodeURIComponent`: percent-unescape to bytes, then UTF-8 decode. -/
def decodeURIComponent (s : List Char) : Option (List Char) :=
  (percentToBytes s).bind utf8Decode

/-- The base64 alphabet used by `btoa`/`atob`. -/
def base64Alphabet : List Char :=
  "ABCDEFGHIJKLMNOPQRSTUVWXYZabcdefghijklmnopqrstuvwxyz0123456789+/".data

/-- The base64 character of a sextet. -/
def b64Char (n : Nat) : Char := base64Alphabet.getD n '='

/-- The sextet of a base64 character. -/
def b64Val (c : Char) : Option Nat := base64Alphabet.indexOf? c

/-- Base64 encoding of a byte sequence with `=` padding (`btoa`'s output
format). -/
def encodeB64 : List Nat → List Char
  | [] => []
  | [a] => [b64Char (a / 4), b64Char (a % 4 * 16), '=', '=']
  | [a, b] => [b64Char (a / 4), b64Char (a % 4 * 16 + b / 16), b64Char (b % 16 * 4), '=']
  | a :: b :: c :: rest =>
      b64Char (a / 4) :: b64Char (a % 4 * 16 + b / 16) :: b64Char (b % 16 * 4 + c / 64) ::
        b64Char (c % 64) :: encodeB64 rest

/-- Base64 decoding of a padded base64 string back to bytes (`atob`'s
core). -/
def decodeB64 : List Char → Option (List Nat)
  | [] => some []
  | w :: x :: y :: z :: rest =>
    match b64Val w, b64Val x with
    | some wv, some xv =>
      if z = '=' then
        if rest = [] then
          if y = '=' then some [wv * 4 + xv / 16]
          else
            match b64Val y with
            | some yv => some [wv * 4 + xv / 16, xv % 16 * 16 + yv / 4]
            | none => none
        else none
      else
        match b64Val y, b64Val z with
        | some yv, some zv =>
            (decodeB64 rest).map (fun bs =>
              (wv * 4 + xv / 16) :: (xv % 16 * 16 + yv / 4) :: (yv % 4 * 64 + zv) :: bs)
        | _, _ => none
    | _, _ => none
  | _ => none

/-- `window.btoa` on its valid domain (all character codes below 256):
base64-encode the character codes. -/
def btoa (s : List Char) : List Char := encodeB64 (s.map Char.toNat)

/-- `window.atob`: base64-decode to a string of byte-valued characters. -/
def atob (s : List Char) : Option (List Char) :=
  (decodeB64 s).map (List.map Char.ofNat)

/-- The JSON name of an `ItemType` (its TypeScript string-enum value). -/
def itemTypeStr : ItemType → String
  | .BOOK => "BOOK"
  | .MOVIE => "MOVIE"
  | .GAME => "GAME"

/-- The sharer field `generateShareLink` puts in the payload (src/App.tsx
line 1115): absent for a public share, else the trimmed name input, falling
back to `A Friend` when blank. -/
def sharerOf (isPublic : Bool) (sharerNameInput : String) : Option String :=
  if isPublic then none
  else some (if jsTrim sharerNameInput = "" then "A Friend" else jsTrim sharerNameInput)

/-- The denormalized descriptor object `generateShareLink` builds for one
member item (src/App.tsx lines 1116-1123): descriptive fields only — no
status, rating, review or memories; `JSON.stringify` drops an undefined
`coverUrl`. -/
def sharedDescJson (i : MediaItem) : Json :=
  .obj ([("title".data, .str i.title.data), ("type".data, .str (itemTypeStr i.type).data),
         ("creator".data, .str i.creator.data), ("year".data, .str i.year.data),
         ("description".data, .str i.description.data)] ++
    (match i.coverUrl with
     | some u => [("coverUrl".data, .str u.data)]
     | none => []))

/-- The `SharedCollectionPayload` object `generateShareLink` serializes
(src/App.tsx lines 1110-1124): title, type, optional sharer, and the
descriptor list of the collection's member items, in JS property-insertion
order with undefined properties dropped by `JSON.stringify`. -/
def sharePayloadJson (col : UserCollection) (isPublic : Bool)
    (sharerNameInput : String) (items : List MediaItem) : Json :=
  .obj ([("title".data, .str col.title.data),
         ("type".data, .str (itemTypeStr col.type).data)] ++
    (match sharerOf isPublic sharerNameInput with
     | some sh => [("sharer".data, .str sh.data)]
     | none => []) ++
    [("items".data, .arr
      ((items.filter (fun i => i.collectionIds.contains col.id)).map sharedDescJson))])

/-- The share token `generateShareLink` embeds in the URL (src/App.tsx
lines 1126-1127): `btoa(encodeURIComponent(JSON.stringify(payload)))`. -/
def generateShareToken (col : UserCollection) (isPublic : Bool)
    (sharerNameInput : String) (items : List MediaItem) : List Char :=
  btoa (encodeURIComponent
    (Json.render (sharePayloadJson col isPublic sharerNameInput items)))

/-- The decoder of `handlePreviewLink` for a bare token (src/App.tsx lines
1178-1179): `JSON.parse(decodeURIComponent(atob(payloadString)))`. -/
def decodeShareToken (tok : List Char) : Option Json := do
  let latin ← atob tok
  let chars ← decodeURIComponent latin
  Json.parse chars

/-! ### Theorems -/

theorem any_dupTitle_iff (cols : List UserCollection) (itemType : ItemType) (s : String) :
    (cols.any (fun c => c.type == itemType && jsToLower c.title == jsToLower s) = true) ↔
      dupTitle cols itemType s := by
  simp [dupTitle, List.any_eq_true, Bool.and_eq_true]

/-- Claim C2, counterexample: as stated, the claim requires every failure to
surface a user-visible error, but `handleCreateCollection` on a
whitespace-only title returns the sentinel silently — the error toast is
emitted only on the duplicate-title branch (src/App.tsx lines 1003 versus
1007-1010). -/
theorem handleCreateCollection_errorSurfacing_cex :
    ¬ ∀ (title description : String) (itemType : ItemType) (freshId now : String)
        (cols : List UserCollection),
        (((handleCreateCollection title description itemType freshId now cols).newId = none ∧
          (handleCreateCollection title description itemType freshId now cols).toasts ≠ []) ↔
        (jsTrim title = "" ∨ dupTitle cols itemType (jsTrim title))) := by
  intro h
  have h2 := (h " " "" .BOOK "c1" "t0" []).mpr (Or.inl (by decide))
  exact h2.2 (by decide)

/-- Claim C2 (amended): `createCollection` fails — returning the sentinel
`null` — iff the trimmed title is empty or a same-type collection with a
case-insensitively equal title exists; on failure the collection set is
unchanged; a *user-visible error is surfaced exactly on the duplicate-title
failure* (the empty-title failure is silent); on success a new collection
with the fresh id and the trimmed title is appended. -/
theorem handleCreateCollection_spec (title description : String) (itemType : ItemType)
    (freshId now : String) (cols : List UserCollection) :
    ((handleCreateCollection title description itemType freshId now cols).newId = none ↔
      (jsTrim title = "" ∨ dupTitle cols itemType (jsTrim title))) ∧
    ((handleCreateCollection title description itemType freshId now cols).newId = none →
      (handleCreateCollection title description itemType freshId now cols).collections = cols) ∧
    ((handleCreateCollection title description itemType freshId now cols).toasts ≠ [] ↔
      (jsTrim title ≠ "" ∧ dupTitle cols itemType (jsTrim title))) ∧
    (∀ id, (handleCreateCollection title description itemType freshId now cols).newId = some id →
      id = freshId ∧
      (handleCreateCollection title description itemType freshId now cols).collections =
        cols ++ [⟨freshId, jsTrim title, some description, itemType, now⟩]) := by
  unfold handleCreateCollection
  by_cases h1 : jsTrim title = ""
  · simp [h1]
  · by_cases h2 : cols.any
        (fun c => c.type == itemType && jsToLower c.title == jsToLower (jsTrim title)) = true
    · have hd : dupTitle cols itemType (jsTrim title) := (any_dupTitle_iff _ _ _).mp h2
      simp [h1, h2, hd]
    · have hd : ¬ dupTitle cols itemType (jsTrim title) :=
        fun hc => h2 ((any_dupTitle_iff _ _ _).mpr hc)
      simp [h1, h2, hd]

/-- Claim C2, witness: concrete instances of the amended specification — a
duplicate-title creation fails with a toast and unchanged state, a
successful creation appends the trimmed-title collection. -/
theorem handleCreateCollection_spec_witness :
    (handleCreateCollection "Faves" "" .BOOK "c2" "t1"
        [⟨"c1", "faves", some "", .BOOK, "t0"⟩]).newId = none ∧
    (handleCreateCollection "Faves" "" .BOOK "c2" "t1"
        [⟨"c1", "faves", some "", .BOOK, "t0"⟩]).collections =
      [⟨"c1", "faves", some "", .BOOK, "t0"⟩] ∧
    (handleCreateCollection " New " "" .BOOK "c2" "t1" []).collections =
      [⟨"c2", "New", some "", .BOOK, "t1"⟩] := by
  refine ⟨?_, ?_, ?_⟩
  · exact (handleCreateCollection_spec "Faves" "" .BOOK "c2" "t1"
      [⟨"c1", "faves", some "", .BOOK, "t0"⟩]).1.mpr (Or.inr (by decide))
  · exact (handleCreateCollection_spec "Faves" "" .BOOK "c2" "t1"
      [⟨"c1", "faves", some "", .BOOK, "t0"⟩]).2.1
      ((handleCreateCollection_spec "Faves" "" .BOOK "c2" "t1"
        [⟨"c1", "faves", some "", .BOOK, "t0"⟩]).1.mpr (Or.inr (by decide)))
  · have h := ((handleCreateCollection_spec " New " "" .BOOK "c2" "t1" []).2.2.2
      "c2" (by decide)).2
    simpa using h

/-- Claim C3: `deleteCollection(id)` keeps every item (same length,
position by position), removes the collection id from every item's
membership set while leaving every other field untouched, and removes
exactly the collections with that id from the collection set. -/
theorem handleDeleteCollection_spec (collectionId : String) (items : List MediaItem)
    (cols : List UserCollection) :
    ((handleDeleteCollection collectionId items cols).1.length = items.length) ∧
    (∀ i' ∈ (handleDeleteCollection collectionId items cols).1,
      collectionId ∉ i'.collectionIds) ∧
    (∀ k i i', items.get? k = some i →
      (handleDeleteCollection collectionId items cols).1.get? k = some i' →
      i'.id = i.id ∧ i'.title = i.title ∧ i'.originalTitle = i.originalTitle ∧
      i'.type = i.type ∧ i'.creator = i.creator ∧ i'.year = i.year ∧
      i'.description = i.description ∧ i'.status = i.status ∧ i'.rating = i.rating ∧
      i'.review = i.review ∧ i'.memories = i.memories ∧ i'.addedAt = i.addedAt ∧
      i'.coverUrl = i.coverUrl ∧ i'.collaborators = i.collaborators ∧
      i'.collectionIds = i.collectionIds.filter (fun id => id != collectionId)) ∧
    ((handleDeleteCollection collectionId items cols).2 =
      cols.filter (fun c => c.id != collectionId)) ∧
    (∀ c' ∈ (handleDeleteCollection collectionId items cols).2, c'.id ≠ collectionId) := by
  refine ⟨by simp [handleDeleteCollection], ?_, ?_, rfl, ?_⟩
  · intro i' hi'
    simp only [handleDeleteCollection, List.mem_map] at hi'
    obtain ⟨i, _, rfl⟩ := hi'
    simp
  · intro k i i' hk hk'
    simp only [handleDeleteCollection, List.get?_map, hk, Option.map_some'] at hk'
    cases hk'
    simp
  · intro c' hc'
    simp only [handleDeleteCollection, List.mem_filter] at hc'
    simpa using hc'.2

/-- Claim C3, witness: deleting a collection that three items belong to (two
of which belong only to it) keeps all three items, with the collection id
gone from their membership sets. -/
theorem handleDeleteCollection_spec_witness :
    (handleDeleteCollection "col" [{ itemEx with collectionIds := ["col"] },
        { itemEx with id := "b", collectionIds := ["col"] },
        { itemEx with id := "c", collectionIds := ["col", "other"] }] []).1.length = 3 ∧
    (∀ i' ∈ (handleDeleteCollection "col" [{ itemEx with collectionIds := ["col"] },
        { itemEx with id := "b", collectionIds := ["col"] },
        { itemEx with id := "c", collectionIds := ["col", "other"] }] []).1,
      "col" ∉ i'.collectionIds) ∧
    (∀ i i', ([{ itemEx with collectionIds := ["col"] },
        { itemEx with id := "b", collectionIds := ["col"] },
        { itemEx with id := "c", collectionIds := ["col", "other"] }] :
          List MediaItem).get? 2 = some i →
      (handleDeleteCollection "col" [{ itemEx with collectionIds := ["col"] },
        { itemEx with id := "b", collectionIds := ["col"] },
        { itemEx with id := "c", collectionIds := ["col", "other"] }] []).1.get? 2 = some i' →
      i'.collectionIds = i.collectionIds.filter (fun id => id != "col")) := by
  refine ⟨(handleDeleteCollection_spec "col" _ _).1, (handleDeleteCollection_spec "col" _ _).2.1,
    fun i i' h h' => ((handleDeleteCollection_spec "col" _ _).2.2.1 2 i i' h h').2.2.2.2.2.2.2.2.2.2.2.2.2.2⟩

/-- Claim C10: the `Remove` action on a search result deletes every library
item whose (title, creator, type) triple equals the result's — none remain,
the list shrinks by exactly the number of matching items (so duplicates are
all deleted at once), and every non-matching item survives whatever its
collections, memories or other user state. -/
theorem handleRemoveFromSearch_spec (result : SearchResult) (items : List MediaItem) :
    ((handleRemoveFromSearch result items).countP (fun i => matchesResult result i) = 0) ∧
    ((handleRemoveFromSearch result items).length +
      items.countP (fun i => matchesResult result i) = items.length) ∧
    (∀ i ∈ items, matchesResult result i → i ∉ handleRemoveFromSearch result items) ∧
    (∀ i ∈ items, ¬ matchesResult result i → i ∈ handleRemoveFromSearch result items) := by
  refine ⟨?_, ?_, ?_, ?_⟩
  · simp only [List.countP_eq_zero, handleRemoveFromSearch]
    intro a ha
    have := (List.mem_filter.mp ha).2
    simp only [Bool.not_eq_true'] at this
    simp [this]
  · have h := List.length_eq_length_filter_add (l := items)
      (fun i => matchesResult result i)
    simp only [handleRemoveFromSearch, List.countP_eq_length_filter]
    omega
  · intro i _ him hmem
    have := (List.mem_filter.mp hmem).2
    simp [him] at this
  · intro i hi him
    exact List.mem_filter.mpr ⟨hi, by simp [him]⟩

/-- Claim C10, witness: one remove action deletes both duplicate "Dune"
items (different user state, different collections) while keeping the
unrelated item. -/
theorem handleRemoveFromSearch_spec_witness :
    (itemEx ∉ handleRemoveFromSearch ⟨"Dune", .BOOK, "Frank Herbert", "1965", ""⟩
        [itemEx, { itemEx with id := "b", rating := some 5, collectionIds := ["col"] },
          { itemEx with id := "c", title := "Other" }]) ∧
    ({ itemEx with id := "b", rating := some 5, collectionIds := ["col"] } ∉
      handleRemoveFromSearch ⟨"Dune", .BOOK, "Frank Herbert", "1965", ""⟩
        [itemEx, { itemEx with id := "b", rating := some 5, collectionIds := ["col"] },
          { itemEx with id := "c", title := "Other" }]) ∧
    ({ itemEx with id := "c", title := "Other" } ∈
      handleRemoveFromSearch ⟨"Dune", .BOOK, "Frank Herbert", "1965", ""⟩
        [itemEx, { itemEx with id := "b", rating := some 5, collectionIds := ["col"] },
          { itemEx with id := "c", title := "Other" }]) := by
  refine ⟨(handleRemoveFromSearch_spec _ _).2.2.1 _ (by decide) (by decide),
    (handleRemoveFromSearch_spec _ _).2.2.1 _ (by decide) (by decide),
    (handleRemoveFromSearch_spec _ _).2.2.2 _ (by decide) (by decide)⟩

theorem jsSetOfList_mem (xs : List String) (y : String) : y ∈ jsSetOfList xs ↔ y ∈ xs := by
  induction xs with
  | nil => simp [jsSetOfList]
  | cons x xs ih =>
    by_cases hyx : y = x
    · subst hyx; simp [jsSetOfList]
    · simp [jsSetOfList, List.mem_filter, hyx, ih]

theorem jsSetOfList_nodup (xs : List String) : (jsSetOfList xs).Nodup := by
  induction xs with
  | nil => simp [jsSetOfList]
  | cons x xs ih =>
    refine List.Nodup.cons ?_ (ih.filter _)
    intro hx
    have := (List.mem_filter.mp hx).2
    simp at this

theorem jsFindIndex_eq_none_iff (p : α → Bool) (l : List α) :
    jsFindIndex p l = none ↔ ∀ x ∈ l, ¬ p x := by
  induction l with
  | nil => simp [jsFindIndex]
  | cons x xs ih =>
    by_cases hx : p x
    · simp [jsFindIndex, hx]
    · simp [jsFindIndex, hx, ih]

theorem jsFindIndex_set (p : α → Bool) (l : List α) (k : Nat) (u : α)
    (h : jsFindIndex p l = some k) (hu : p u) :
    jsFindIndex p (l.set k u) = some k := by
  induction l generalizing k with
  | nil => simp [jsFindIndex] at h
  | cons x xs ih =>
    by_cases hx : p x
    · simp only [jsFindIndex, if_pos hx, Option.some.injEq] at h
      subst h
      simp [List.set_cons_zero, jsFindIndex, hu]
    · simp only [jsFindIndex, if_neg hx, Option.map_eq_some'] at h
      obtain ⟨k', hk', rfl⟩ := h
      simp [List.set_cons_succ, jsFindIndex, hx, ih k' hk']

/-- Claim C7: `acceptItemEdit` builds the updated item by appending the
sharer's name to the payload item's collaborator set with set semantics (a
duplicate-free list containing exactly the payload's collaborators and the
sharer); it replaces the first item whose id equals the payload's in place
when one exists (finding none means no item has the id) and prepends the
item as new otherwise; accepting the same edit again changes nothing
(so repeated acceptance never duplicates the sharer's name). -/
theorem handleAcceptEdit_spec (payload : SharedItemPayload) (items : List MediaItem) :
    (∃ l, (acceptEditUpdatedItem payload).collaborators = some l ∧ l.Nodup ∧
      payload.sharer ∈ l ∧
      (∀ x, x ∈ l ↔ (x ∈ payload.item.collaborators.getD [] ∨ x = payload.sharer))) ∧
    ((acceptEditUpdatedItem payload).id = payload.item.id) ∧
    (∀ k, jsFindIndex (fun i => i.id == payload.item.id) items = some k →
      handleAcceptEdit payload items = items.set k (acceptEditUpdatedItem payload) ∧
      (handleAcceptEdit payload items).length = items.length) ∧
    ((jsFindIndex (fun i => i.id == payload.item.id) items = none) ↔
      ∀ i ∈ items, i.id ≠ payload.item.id) ∧
    (jsFindIndex (fun i => i.id == payload.item.id) items = none →
      handleAcceptEdit payload items = acceptEditUpdatedItem payload :: items) ∧
    (handleAcceptEdit payload (handleAcceptEdit payload items) =
      handleAcceptEdit payload items) := by
  refine ⟨⟨jsSetOfList (payload.item.collaborators.getD [] ++ [payload.sharer]),
      rfl, jsSetOfList_nodup _, ?_, ?_⟩, rfl, ?_, ?_, ?_, ?_⟩
  · exact (jsSetOfList_mem _ _).mpr (by simp)
  · intro x
    rw [jsSetOfList_mem]
    simp
  · intro k hk
    constructor
    · simp only [handleAcceptEdit, hk]
    · simp only [handleAcceptEdit, hk, List.length_set]
  · rw [jsFindIndex_eq_none_iff]
    constructor
    · intro h i hi
      have := h i hi
      simpa using this
    · intro h i hi
      simpa using h i hi
  · intro hk
    simp only [handleAcceptEdit, hk]
  · have hid : ((fun i => i.id == payload.item.id) (acceptEditUpdatedItem payload)) = true := by
      simp [acceptEditUpdatedItem]
    cases hk : jsFindIndex (fun i => i.id == payload.item.id) items with
    | none =>
        simp only [handleAcceptEdit, hk]
        have h0 : jsFindIndex (fun i => i.id == payload.item.id)
            (acceptEditUpdatedItem payload :: items) = some 0 := by
          simp [jsFindIndex, hid]
        simp only [h0, List.set_cons_zero]
    | some k =>
        simp only [handleAcceptEdit, hk]
        have h1 := jsFindIndex_set (fun i => i.id == payload.item.id) items k
          (acceptEditUpdatedItem payload) hk hid
        simp only [h1, List.set_set]

/-- Claim C7, witness: accepting an edit whose payload repeats a
collaborator replaces the single matching item in place (the library keeps
length 1), and accepting an edit for an unknown id prepends it as new. -/
theorem handleAcceptEdit_spec_witness :
    ((handleAcceptEdit ⟨{ itemEx with collaborators := some ["Ann", "Bob", "Ann"] }, "Bob"⟩
        [itemEx]).length = 1) ∧
    (handleAcceptEdit ⟨{ itemEx with collaborators := some ["Ann", "Bob", "Ann"] }, "Bob"⟩
        [{ itemEx with id := "zz" }] =
      acceptEditUpdatedItem ⟨{ itemEx with collaborators := some ["Ann", "Bob", "Ann"] }, "Bob"⟩
        :: [{ itemEx with id := "zz" }]) := by
  constructor
  · have h := ((handleAcceptEdit_spec
      ⟨{ itemEx with collaborators := some ["Ann", "Bob", "Ann"] }, "Bob"⟩
      [itemEx]).2.2.1 0 (by decide)).2
    simpa using h
  · exact (handleAcceptEdit_spec _ _).2.2.2.2.1 (by decide)

theorem handleCreateCollection_ciUnique (title description : String) (itemType : ItemType)
    (freshId now : String) (cols : List UserCollection) (h : ciUnique cols) :
    ciUnique (handleCreateCollection title description itemType freshId now cols).collections := by
  have hs := handleCreateCollection_spec title description itemType freshId now cols
  by_cases h1 : jsTrim title = ""
  · rw [hs.2.1 (hs.1.mpr (Or.inl h1))]
    exact h
  · by_cases h2 : dupTitle cols itemType (jsTrim title)
    · rw [hs.2.1 (hs.1.mpr (Or.inr h2))]
      exact h
    · have hne : (handleCreateCollection title description itemType freshId now cols).newId ≠ none := by
        intro hn
        rcases hs.1.mp hn with hx | hx
        · exact h1 hx
        · exact h2 hx
      obtain ⟨id, hid⟩ := Option.ne_none_iff_exists'.mp hne
      rw [(hs.2.2.2 id hid).2]
      unfold ciUnique at h ⊢
      rw [List.pairwise_append]
      refine ⟨h, List.pairwise_singleton _ _, ?_⟩
      intro c hc c' hc'
      have hc'' : c' = ⟨freshId, jsTrim title, some description, itemType, now⟩ := by
        simpa using hc'
      subst hc''
      intro htype hlow
      exact h2 ⟨c, hc, by simpa using htype, by simpa using hlow⟩

theorem handleImportCollection_ciUnique (payload : SharedCollectionPayload)
    (freshColId : String) (gen : Nat → String) (now : String) (st : AppState)
    (h : ciUnique st.userCollections) :
    ciUnique (handleImportCollection payload freshColId gen now st).userCollections := by
  unfold handleImportCollection
  cases hn : (handleCreateCollection (importTitle st.userCollections payload) ""
      payload.type freshColId now st.userCollections).newId with
  | none => simpa [hn] using h
  | some newId =>
      simpa [hn] using
        handleCreateCollection_ciUnique (importTitle st.userCollections payload) ""
          payload.type freshColId now st.userCollections h

/-- Claim C5: repeated imports of the same payload preserve the
collection-title invariant — starting from any collection set in which no
two same-type collections have case-insensitively equal titles, after any
number of repeated `importCollection` applications (each resolving its
display title through the `(Shared by X)` / `(Imported)` suffix and the
incrementing numeric disambiguator, and creating the collection through the
same uniqueness guard as `createCollection`) the collection set still has no
two same-type collections with case-insensitively equal titles. -/
theorem iterateImport_ciUnique (payload : SharedCollectionPayload) (fc : Nat → String)
    (gen : Nat → Nat → String) (now : Nat → String) (n : Nat) (st : AppState)
    (h : ciUnique st.userCollections) :
    ciUnique (iterateImport payload fc gen now n st).userCollections := by
  induction n generalizing st with
  | zero => exact h
  | succ n ih =>
      exact ih _ (handleImportCollection_ciUnique payload (fc n) (gen n) (now n) st h)

/-- Claim C5, witness: three repeated imports of the same shared payload
into an initially empty state keep the invariant (and concretely produce
three distinctly disambiguated titles). -/
theorem iterateImport_ciUnique_witness :
    ciUnique ([] : List UserCollection) ∧
    ciUnique (iterateImport ⟨"Favorites", .BOOK, some "Sam", [duneDesc]⟩
      (fun n => "c" ++ toString n) (fun n k => "g" ++ toString n ++ toString k)
      (fun n => "t" ++ toString n) 3 ⟨[], []⟩).userCollections :=
  ⟨by decide,
   iterateImport_ciUnique ⟨"Favorites", .BOOK, some "Sam", [duneDesc]⟩
     (fun n => "c" ++ toString n) (fun n k => "g" ++ toString n ++ toString k)
     (fun n => "t" ++ toString n) 3 ⟨[], []⟩ (by decide)⟩

theorem applyLinked_id (newId : String) (ids : List String) (i : MediaItem) :
    (applyLinked newId ids i).id = i.id := by
  unfold applyLinked; split <;> rfl

theorem applyLinked_nil (newId : String) (i : MediaItem) :
    applyLinked newId [] i = i := by
  unfold applyLinked; simp

theorem linkExisting_applyLinked (newId : String) (origItems : List MediaItem)
    (hN : (origItems.map (fun i => i.id)).Nodup) (ex : MediaItem) (hex : ex ∈ origItems)
    (ids : List String) :
    linkExisting newId ex (origItems.map (applyLinked newId ids)) =
      origItems.map (applyLinked newId (ids ++ [ex.id])) := by
  unfold linkExisting
  rw [List.map_map]
  apply List.map_congr_left
  intro i hi
  simp only [Function.comp]
  by_cases hid : i.id = ex.id
  · have hieq : i = ex := List.inj_on_of_nodup_map hN hi hex (by simpa using hid)
    subst hieq
    rw [if_pos (by simp [applyLinked_id])]
    have hL : { applyLinked newId ids i with
        collectionIds := i.collectionIds ++ [newId] } =
        { i with collectionIds := i.collectionIds ++ [newId] } := by
      unfold applyLinked; split <;> rfl
    rw [hL]
    unfold applyLinked
    rw [if_pos (by simp)]
  · rw [if_neg (by simp [applyLinked_id, hid])]
    unfold applyLinked
    by_cases hmem : i.id ∈ ids
    · rw [if_pos hmem, if_pos (List.mem_append_left _ hmem)]
    · rw [if_neg hmem, if_neg (by simp [hmem, hid])]

theorem importItemsGo_closedForm (origItems : List MediaItem) (ptype : ItemType)
    (newId : String) (gen : Nat → String) (now : String)
    (hN : (origItems.map (fun i => i.id)).Nodup) :
    ∀ (ps : List SharedItemDesc) (ids : List String) (cur newAcc : List MediaItem) (k : Nat),
      cur = origItems.map (applyLinked newId ids) →
      importItemsGo origItems ptype newId gen now ps cur newAcc k =
        (origItems.map (applyLinked newId (ids ++ linkedIds origItems ps)),
         newAcc ++ createdList origItems ptype newId gen now ps k,
         k + ps.countP (fun p => (origItems.find? (matchesShared p)).isNone)) := by
  intro ps
  induction ps with
  | nil =>
      intro ids cur newAcc k hcur
      subst hcur
      simp [importItemsGo, linkedIds, createdList]
  | cons p ps ih =>
      intro ids cur newAcc k hcur
      subst hcur
      cases hf : origItems.find? (matchesShared p) with
      | some ex =>
          have hex : ex ∈ origItems := List.mem_of_find?_eq_some hf
          simp only [importItemsGo, hf]
          rw [ih (ids ++ [ex.id]) _ newAcc k
            (linkExisting_applyLinked newId origItems hN ex hex ids)]
          simp [linkedIds, createdList, hf, List.append_assoc, List.countP_cons]
      | none =>
          simp only [importItemsGo, hf]
          rw [ih ids _ (newAcc ++ [newItemOfShared p ptype newId (gen k) now]) (k + 1) rfl]
          refine Prod.ext ?_ (Prod.ext ?_ ?_) <;>
            simp [linkedIds, createdList, hf, List.append_assoc, List.countP_cons] <;> omega

theorem importItems_closedForm (origItems : List MediaItem)
    (payload : SharedCollectionPayload) (newId : String) (gen : Nat → String) (now : String)
    (hN : (origItems.map (fun i => i.id)).Nodup) :
    importItems origItems payload newId gen now =
      createdList origItems payload.type newId gen now payload.items 0 ++
        origItems.map (applyLinked newId (linkedIds origItems payload.items)) := by
  unfold importItems
  rw [importItemsGo_closedForm origItems payload.type newId gen now hN payload.items []
    origItems [] 0 ?_]
  · simp
  · rw [List.map_congr_left (fun i _ => applyLinked_nil newId i)]
    simp

theorem createdList_length (origItems : List MediaItem) (ptype : ItemType)
    (newId : String) (gen : Nat → String) (now : String) :
    ∀ (ps : List SharedItemDesc) (k : Nat),
      (createdList origItems ptype newId gen now ps k).length =
        ps.countP (fun p => (origItems.find? (matchesShared p)).isNone) := by
  intro ps
  induction ps with
  | nil => intro k; simp [createdList]
  | cons p ps ih =>
      intro k
      cases hf : origItems.find? (matchesShared p) <;>
        simp [createdList, hf, ih, List.countP_cons]

theorem createdList_mem (origItems : List MediaItem) (ptype : ItemType)
    (newId : String) (gen : Nat → String) (now : String) :
    ∀ (ps : List SharedItemDesc) (k : Nat) (p : SharedItemDesc), p ∈ ps →
      origItems.find? (matchesShared p) = none →
      ∃ j, newItemOfShared p ptype newId (gen j) now ∈
        createdList origItems ptype newId gen now ps k := by
  intro ps
  induction ps with
  | nil => intro k p hp; simp at hp
  | cons q ps ih =>
      intro k p hp hf
      rcases List.mem_cons.mp hp with rfl | hp'
      · refine ⟨k, ?_⟩
        simp [createdList, hf]
      · cases hfq : origItems.find? (matchesShared q) with
        | some ex =>
            obtain ⟨j, hj⟩ := ih k p hp' hf
            exact ⟨j, by simp [createdList, hfq, hj]⟩
        | none =>
            obtain ⟨j, hj⟩ := ih (k + 1) p hp' hf
            exact ⟨j, by simp [createdList, hfq, List.mem_cons, hj]⟩

/-- Claim C4: `importCollection` processes each incoming descriptor by
matching on identical (title, creator, type) against the pre-import library:
the final library has exactly `origItems.length` plus one item per unmatched
descriptor (so a matched descriptor creates no duplicate `MediaItem`); every
matched descriptor's library item survives with its membership set extended
by exactly the new collection id and all other fields unchanged; every
unmatched descriptor yields an item with a fresh generated id, wish-listed
status, empty memories, the current timestamp, membership exactly the new
collection, and descriptive fields seeded from the descriptor. -/
theorem handleImportCollection_items_spec (origItems : List MediaItem)
    (payload : SharedCollectionPayload) (newId : String) (gen : Nat → String) (now : String)
    (hN : (origItems.map (fun i => i.id)).Nodup) :
    ((importItems origItems payload newId gen now).length =
      origItems.length +
        payload.items.countP (fun p => (origItems.find? (matchesShared p)).isNone)) ∧
    (∀ p ∈ payload.items, ∀ ex, origItems.find? (matchesShared p) = some ex →
      ∃ i' ∈ importItems origItems payload newId gen now,
        i'.id = ex.id ∧ i'.collectionIds = ex.collectionIds ++ [newId] ∧
        i'.title = ex.title ∧ i'.type = ex.type ∧ i'.creator = ex.creator ∧
        i'.year = ex.year ∧ i'.description = ex.description ∧ i'.status = ex.status ∧
        i'.rating = ex.rating ∧ i'.review = ex.review ∧ i'.memories = ex.memories ∧
        i'.addedAt = ex.addedAt) ∧
    (∀ p ∈ payload.items, origItems.find? (matchesShared p) = none →
      ∃ i' ∈ importItems origItems payload newId gen now,
        (∃ j, i'.id = gen j) ∧ i'.status = .WANT_TO ∧ i'.memories = [] ∧
        i'.addedAt = now ∧ i'.collectionIds = [newId] ∧
        i'.title = jsOrElse p.title "Unknown" ∧ i'.type = p.type.getD payload.type ∧
        i'.creator = jsOrElse p.creator "Unknown" ∧ i'.year = jsOrElse p.year "" ∧
        i'.description = jsOrElse p.description "") := by
  rw [importItems_closedForm origItems payload newId gen now hN]
  refine ⟨?_, ?_, ?_⟩
  · simp [createdList_length]
    omega
  · intro p hp ex hf
    have hex : ex ∈ origItems := List.mem_of_find?_eq_some hf
    have hmem : ex.id ∈ linkedIds origItems payload.items := by
      simp only [linkedIds, List.mem_filterMap]
      exact ⟨p, hp, by simp [hf]⟩
    refine ⟨applyLinked newId (linkedIds origItems payload.items) ex,
      List.mem_append_right _ (List.mem_map_of_mem _ hex), ?_⟩
    simp [applyLinked, hmem]
  · intro p hp hf
    obtain ⟨j, hj⟩ := createdList_mem origItems payload.type newId gen now
      payload.items 0 p hp hf
    refine ⟨newItemOfShared p payload.type newId (gen j) now,
      List.mem_append_left _ hj, ⟨j, rfl⟩, ?_⟩
    simp [newItemOfShared]

/-- Claim C4, witness: the spec's example — importing a payload containing
Dune into a library that already has Dune by Frank Herbert links the
existing item into the new collection (membership gains exactly the new
collection id, nothing else changes) instead of creating a duplicate. -/
theorem handleImportCollection_items_spec_witness :
    (([itemEx].map (fun i => i.id)).Nodup) ∧
    (∃ i' ∈ importItems [itemEx] ⟨"Favorites", .BOOK, none, [duneDesc]⟩ "newCol"
        (fun k => "g" ++ toString k) "t1",
      i'.id = itemEx.id ∧ i'.collectionIds = itemEx.collectionIds ++ ["newCol"] ∧
      i'.title = itemEx.title ∧ i'.type = itemEx.type ∧ i'.creator = itemEx.creator ∧
      i'.year = itemEx.year ∧ i'.description = itemEx.description ∧
      i'.status = itemEx.status ∧ i'.rating = itemEx.rating ∧
      i'.review = itemEx.review ∧ i'.memories = itemEx.memories ∧
      i'.addedAt = itemEx.addedAt) :=
  ⟨by decide,
   (handleImportCollection_items_spec [itemEx] ⟨"Favorites", .BOOK, none, [duneDesc]⟩
      "newCol" (fun k => "g" ++ toString k) "t1" (by decide)).2.1
     duneDesc (by decide) itemEx (by decide)⟩

theorem applyLinked_type (newId : String) (ids : List String) (i : MediaItem) :
    (applyLinked newId ids i).type = i.type := by
  unfold applyLinked; split <;> rfl

theorem createdList_id (origItems : List MediaItem) (ptype : ItemType)
    (newId : String) (gen : Nat → String) (now : String) :
    ∀ (ps : List SharedItemDesc) (k : Nat),
      ∀ i' ∈ createdList origItems ptype newId gen now ps k, ∃ j, i'.id = gen j := by
  intro ps
  induction ps with
  | nil => intro k i' hi'; simp [createdList] at hi'
  | cons p ps ih =>
      intro k i' hi'
      cases hf : origItems.find? (matchesShared p) with
      | some ex =>
          rw [createdList, hf] at hi'
          exact ih k i' hi'
      | none =>
          rw [createdList, hf] at hi'
          rcases List.mem_cons.mp hi' with rfl | hmem
          · exact ⟨k, rfl⟩
          · exact ih (k + 1) i' hmem

theorem mem_same_id_eq {items : List MediaItem}
    (hN : (items.map (fun i => i.id)).Nodup) {a b : MediaItem}
    (ha : a ∈ items) (hb : b ∈ items) (h : a.id = b.id) : a = b :=
  List.inj_on_of_nodup_map hN ha hb h

/-- Claim C8, counterexample: `updateItem` is a wholesale replacement of the
item matching the payload's id (src/App.tsx line 983), so invoking it with a
payload that carries the same id but a different type changes the stored
item's type: the book `itemEx` exists before, the movie `itemExMovie` with
the same id exists after. -/
theorem handleUpdateItem_typeChange_cex :
    itemEx ∈ (AppState.mk [itemEx] []).items ∧
    itemExMovie ∈ (applyOp (.updateItem itemExMovie) (AppState.mk [itemEx] [])).items ∧
    itemExMovie.id = itemEx.id ∧ itemExMovie.type ≠ itemEx.type := by
  decide

/-- Claim C8 (amended): provided the full-item-payload operations
(`updateItem`, `acceptItemEdit`) are invoked with a payload whose type
equals the stored item's type for that id — which every in-app caller, all
of which copy the stored item, guarantees — and item-creating operations use
fresh ids, every library engine operation preserves the type of every item
that exists both before and after it (items identified by their unique id). -/
theorem applyOp_preservesType (op : Op) (st : AppState)
    (hN : (st.items.map (fun i => i.id)).Nodup) (h : typeSafeArgs op st) :
    ∀ i ∈ st.items, ∀ i' ∈ (applyOp op st).items, i'.id = i.id → i'.type = i.type := by
  intro i hi i' hi' hid
  cases op with
  | addItem result collectionId freshId now =>
      simp only [applyOp, addToLibrary] at hi'
      rcases List.mem_cons.mp hi' with rfl | hmem
      · exact absurd hid.symm (h i hi)
      · rw [mem_same_id_eq hN hmem hi hid]
  | updateItem u =>
      simp only [applyOp, handleUpdateItem, List.mem_map] at hi'
      obtain ⟨x, hx, hfx⟩ := hi'
      by_cases hxu : x.id = u.id
      · rw [if_pos (by simpa using hxu)] at hfx
        subst hfx
        rw [h i hi (by rw [← hid, ← hxu])]
      · rw [if_neg (by simpa using hxu)] at hfx
        subst hfx
        rw [mem_same_id_eq hN hx hi hid]
  | deleteItem id =>
      simp only [applyOp, handleDeleteItem] at hi'
      rw [mem_same_id_eq hN (List.mem_of_mem_filter hi') hi hid]
  | itemCollectionUpdate itemId colIds =>
      simp only [applyOp, handleItemCollectionUpdate, List.mem_map] at hi'
      obtain ⟨x, hx, hfx⟩ := hi'
      have hxtype : i'.type = x.type := by subst hfx; split <;> rfl
      have hxid : i'.id = x.id := by subst hfx; split <;> rfl
      rw [hxtype, mem_same_id_eq hN hx hi (hxid ▸ hid)]
  | createCollection title description itemType freshId now =>
      simp only [applyOp] at hi'
      rw [mem_same_id_eq hN hi' hi hid]
  | deleteCollection id =>
      simp only [applyOp, handleDeleteCollection, List.mem_map] at hi'
      obtain ⟨x, hx, hfx⟩ := hi'
      have hxtype : i'.type = x.type := by subst hfx; rfl
      have hxid : i'.id = x.id := by subst hfx; rfl
      rw [hxtype, mem_same_id_eq hN hx hi (hxid ▸ hid)]
  | importCollection payload freshColId gen now =>
      simp only [applyOp, handleImportCollection] at hi'
      cases hn : (handleCreateCollection (importTitle st.userCollections payload) ""
          payload.type freshColId now st.userCollections).newId with
      | none =>
          rw [hn] at hi'
          rw [mem_same_id_eq hN hi' hi hid]
      | some newId =>
          rw [hn] at hi'
          simp only at hi'
          rw [importItems_closedForm st.items payload newId gen now hN] at hi'
          rcases List.mem_append.mp hi' with hmem | hmem
          · obtain ⟨j, hj⟩ := createdList_id st.items payload.type newId gen now
              payload.items 0 i' hmem
            exact absurd (hj ▸ hid).symm (h j i hi)
          · obtain ⟨x, hx, hfx⟩ := List.mem_map.mp hmem
            have hxtype : i'.type = x.type := hfx ▸ applyLinked_type _ _ _
            have hxid : i'.id = x.id := hfx ▸ applyLinked_id _ _ _
            rw [hxtype, mem_same_id_eq hN hx hi (hxid ▸ hid)]
  | acceptEdit payload =>
      have hutype : (acceptEditUpdatedItem payload).type = payload.item.type := rfl
      have huid : (acceptEditUpdatedItem payload).id = payload.item.id := rfl
      simp only [applyOp, handleAcceptEdit] at hi'
      cases hk : jsFindIndex (fun x => x.id == payload.item.id) st.items with
      | none =>
          rw [hk] at hi'
          simp only at hi'
          rcases List.mem_cons.mp hi' with rfl | hmem
          · rw [hutype, h i hi (by rw [← hid, huid])]
          · rw [mem_same_id_eq hN hmem hi hid]
      | some k =>
          rw [hk] at hi'
          simp only at hi'
          rcases List.mem_or_eq_of_mem_set hi' with hmem | rfl
          · rw [mem_same_id_eq hN hmem hi hid]
          · rw [hutype, h i hi (by rw [← hid, huid])]
  | removeFromSearch result =>
      simp only [applyOp, handleRemoveFromSearch] at hi'
      rw [mem_same_id_eq hN (List.mem_of_mem_filter hi') hi hid]
  | batchStatus selectedIds status =>
      simp only [applyOp, handleBatchStatus, List.mem_map] at hi'
      obtain ⟨x, hx, hfx⟩ := hi'
      have hxtype : i'.type = x.type := by subst hfx; split <;> rfl
      have hxid : i'.id = x.id := by subst hfx; split <;> rfl
      rw [hxtype, mem_same_id_eq hN hx hi (hxid ▸ hid)]
  | batchDeleteLibrary selectedIds =>
      simp only [applyOp, handleBatchDeleteLibrary] at hi'
      rw [mem_same_id_eq hN (List.mem_of_mem_filter hi') hi hid]
  | batchRemoveFromCollection selectedIds activeCollectionId =>
      simp only [applyOp, handleBatchRemoveFromCollection, List.mem_map] at hi'
      obtain ⟨x, hx, hfx⟩ := hi'
      have hxtype : i'.type = x.type := by subst hfx; split <;> rfl
      have hxid : i'.id = x.id := by subst hfx; split <;> rfl
      rw [hxtype, mem_same_id_eq hN hx hi (hxid ▸ hid)]
  | saveCollection activeCollectionId activeType newTitle newDesc =>
      simp only [applyOp] at hi'
      rw [mem_same_id_eq hN hi' hi hid]

/-- Claim C8, witness: a type-respecting `updateItem` (an in-app style
rating edit) leaves the stored item's type unchanged. -/
theorem applyOp_preservesType_witness :
    (([itemEx].map (fun i => i.id)).Nodup) ∧
    typeSafeArgs (.updateItem { itemEx with rating := some 4 }) (AppState.mk [itemEx] []) ∧
    (∀ i ∈ (AppState.mk [itemEx] []).items,
      ∀ i' ∈ (applyOp (.updateItem { itemEx with rating := some 4 })
          (AppState.mk [itemEx] [])).items,
        i'.id = i.id → i'.type = i.type) :=
  ⟨by decide,
   by
    intro i hi hh
    obtain rfl := List.mem_singleton.mp hi
    rfl,
   applyOp_preservesType (.updateItem { itemEx with rating := some 4 })
     (AppState.mk [itemEx] []) (by decide)
     (by
      intro i hi hh
      obtain rfl := List.mem_singleton.mp hi
      rfl)⟩

theorem set_eq_of_get? {α : Type} (l : List α) (i : Nat) (v : α)
    (h : l.get? i = some v) : l.set i v = l := by
  rw [List.get?_eq_getElem?] at h
  induction l generalizing i with
  | nil => simp at h
  | cons x xs ih =>
      cases i with
      | zero =>
          simp only [List.getElem?_cons_zero, Option.some.injEq] at h
          simp [h]
      | succ i =>
          simp only [List.getElem?_cons_succ] at h
          simp [ih i h]

theorem lt_length_of_get? {α : Type} {l : List α} {i : Nat} {v : α}
    (h : l.get? i = some v) : i < l.length := by
  by_contra hc
  rw [List.get?_eq_none.mpr (Nat.le_of_not_lt hc)] at h
  cases h

theorem abortAt_length (reqs : List SearchReq) (c : Nat) :
    (abortAt reqs c).length = reqs.length := by
  unfold abortAt
  cases h : reqs.get? c <;> simp

theorem abortAt_get?_self (reqs : List SearchReq) (c : Nat) (r : SearchReq)
    (h : reqs.get? c = some r) :
    (abortAt reqs c).get? c = some { r with aborted := true } := by
  unfold abortAt
  rw [h]
  simp [List.get?_eq_getElem?, List.getElem?_set_self (lt_length_of_get? h)]

theorem abortAt_get?_ne (reqs : List SearchReq) (c j : Nat) (hne : c ≠ j) :
    (abortAt reqs c).get? j = reqs.get? j := by
  unfold abortAt
  cases h : reqs.get? c with
  | none => rfl
  | some r => simp [List.get?_eq_getElem?, List.getElem?_set_ne hne]

theorem abortAt_query (reqs : List SearchReq) (c : Nat) :
    (abortAt reqs c).map (fun r => r.query) = reqs.map (fun r => r.query) := by
  unfold abortAt
  cases h : reqs.get? c with
  | none => rfl
  | some r =>
      rw [List.map_set]
      exact set_eq_of_get? _ _ _ (by rw [List.get?_map, h]; rfl)

theorem searchInv_init : searchInv initSearchState := by
  refine ⟨?_, ?_, ?_⟩
  · intro c hc
    cases hc
  · intro j r hj ha hd
    simp [initSearchState] at hj
  · intro j hj
    cases hj


theorem searchInv_step (s : SearchUIState) (ev : SearchEv) (h : searchInv s) :
    searchInv (searchStep s ev) := by
  obtain ⟨hE, hC, hD⟩ := h
  cases ev with
  | start q =>
      by_cases hq : jsTrim q = ""
      · simp only [searchStep, if_pos hq]
        exact ⟨hE, hC, hD⟩
      · simp only [searchStep, if_neg hq]
        cases hcur : s.current with
        | none =>
            refine ⟨?_, ?_, ?_⟩
            · intro c hc
              simp only [Option.some.injEq] at hc
              subst hc
              simp
            · intro j r hj ha hd
              rcases Nat.lt_trichotomy j s.reqs.length with hlt | heq | hgt
              · rw [List.get?_append hlt] at hj
                have hcj := hC j r hj ha hd
                rw [hcur] at hcj
                cases hcj
              · subst heq
                rfl
              · rw [List.get?_eq_none.mpr (by simpa using hgt)] at hj
                cases hj
            · intro j hj
              cases hj
        | some c =>
            refine ⟨?_, ?_, ?_⟩
            · intro c' hc'
              simp only [Option.some.injEq] at hc'
              subst hc'
              simp [abortAt_length]
            · intro j r hj ha hd
              replace hj : (abortAt s.reqs c ++
                  [(⟨q, false, false⟩ : SearchReq)]).get? j = some r := hj
              rcases Nat.lt_trichotomy j s.reqs.length with hlt | heq | hgt
              · rw [List.get?_append (by rw [abortAt_length]; exact hlt)] at hj
                cases hr0 : s.reqs.get? c with
                | none =>
                    have habort : abortAt s.reqs c = s.reqs := by
                      unfold abortAt
                      rw [hr0]
                    rw [habort] at hj
                    have hcj := hC j r hj ha hd
                    rw [hcur] at hcj
                    simp only [Option.some.injEq] at hcj
                    subst hcj
                    rw [hr0] at hj
                    cases hj
                | some r0 =>
                    by_cases hjc : j = c
                    · subst hjc
                      rw [abortAt_get?_self s.reqs j r0 hr0] at hj
                      simp only [Option.some.injEq] at hj
                      subst hj
                      cases ha
                    · rw [abortAt_get?_ne s.reqs c j (fun hh => hjc hh.symm)] at hj
                      have hcj := hC j r hj ha hd
                      rw [hcur] at hcj
                      simp only [Option.some.injEq] at hcj
                      exact absurd hcj.symm hjc
              · subst heq
                rfl
              · rw [List.get?_eq_none.mpr (by simp [abortAt_length]; omega)] at hj
                cases hj
            · intro j hj
              cases hj
  | resolve i =>
      cases hr : s.reqs.get? i with
      | none =>
          simp only [searchStep, hr]
          exact ⟨hE, hC, hD⟩
      | some r =>
          by_cases hg : (r.aborted || r.done) = true
          · simp only [searchStep, hr, if_pos hg]
            exact ⟨hE, hC, hD⟩
          · have ha : r.aborted = false := by
              cases hab : r.aborted
              · rfl
              · exact absurd (by rw [hab]; rfl) hg
            have hd : r.done = false := by
              cases hdn : r.done
              · rfl
              · exact absurd (by rw [hdn]; simp) hg
            have hcuri : s.current = some i := hC i r hr ha hd
            have hlen : i < s.reqs.length := lt_length_of_get? hr
            simp only [searchStep, hr, if_neg hg, hcuri, if_pos rfl]
            refine ⟨?_, ?_, ?_⟩
            · intro c hc
              cases hc
            · intro j r' hj ha' hd'
              by_cases hji : j = i
              · subst hji
                rw [List.get?_eq_getElem?, List.getElem?_set_self hlen] at hj
                simp only [Option.some.injEq] at hj
                subst hj
                cases hd'
              · rw [List.get?_eq_getElem?,
                  List.getElem?_set_ne (fun hh => hji hh.symm),
                  ← List.get?_eq_getElem?] at hj
                have hcj := hC j r' hj ha' hd'
                rw [hcuri] at hcj
                simp only [Option.some.injEq] at hcj
                exact absurd hcj.symm hji
            · intro j hj
              simp only [Option.some.injEq] at hj
              subst hj
              rw [List.length_set]
              exact hE _ hcuri
  | reject i =>
      cases hr : s.reqs.get? i with
      | none =>
          simp only [searchStep, hr]
          exact ⟨hE, hC, hD⟩
      | some r =>
          by_cases hg : (r.aborted && !r.done) = true
          · have ha : r.aborted = true := by
              cases hab : r.aborted
              · rw [hab] at hg
                cases hg
              · rfl
            simp only [searchStep, hr, if_pos hg]
            refine ⟨?_, ?_, ?_⟩
            · intro c hc
              by_cases hci : s.current = some i
              · rw [if_pos hci] at hc
                cases hc
              · rw [if_neg hci] at hc
                rw [List.length_set]
                exact hE c hc
            · intro j r' hj ha' hd'
              by_cases hji : j = i
              · subst hji
                rw [List.get?_eq_getElem?,
                  List.getElem?_set_self (lt_length_of_get? hr)] at hj
                simp only [Option.some.injEq] at hj
                subst hj
                cases ha'.symm.trans ha
              · rw [List.get?_eq_getElem?,
                  List.getElem?_set_ne (fun hh => hji hh.symm),
                  ← List.get?_eq_getElem?] at hj
                have hcj := hC j r' hj ha' hd'
                rw [if_neg (by rw [hcj]; intro hh; exact hji (by injection hh))]
                exact hcj
            · intro j hj
              rw [List.length_set]
              exact hD j hj
          · simp only [searchStep, hr, if_neg hg]
            exact ⟨hE, hC, hD⟩
  | stop =>
      cases hcur : s.current with
      | none =>
          simp only [searchStep, hcur]
          exact ⟨hE, hC, hD⟩
      | some c =>
          simp only [searchStep, hcur]
          refine ⟨?_, ?_, ?_⟩
          · intro c' hc'
            cases hc'
          · intro j r hj ha hd
            cases hr0 : s.reqs.get? c with
            | none =>
                have habort : abortAt s.reqs c = s.reqs := by
                  unfold abortAt
                  rw [hr0]
                rw [habort] at hj
                have hcj := hC j r hj ha hd
                rw [hcur] at hcj
                simp only [Option.some.injEq] at hcj
                subst hcj
                rw [hr0] at hj
                cases hj
            | some r0 =>
                by_cases hjc : j = c
                · subst hjc
                  rw [abortAt_get?_self s.reqs j r0 hr0] at hj
                  simp only [Option.some.injEq] at hj
                  subst hj
                  cases ha
                · rw [abortAt_get?_ne s.reqs c j (fun hh => hjc hh.symm)] at hj
                  have hcj := hC j r hj ha hd
                  rw [hcur] at hcj
                  simp only [Option.some.injEq] at hcj
                  exact absurd hcj.symm hjc
          · intro j hj
            rw [abortAt_length]
            exact hD j hj

theorem searchInv_foldl (evs : List SearchEv) (s : SearchUIState) (h : searchInv s) :
    searchInv (evs.foldl searchStep s) := by
  induction evs generalizing s with
  | nil => exact h
  | cons e evs ih => exact ih _ (searchInv_step s e h)

theorem searchInv_run (evs : List SearchEv) : searchInv (runSearch evs) :=
  searchInv_foldl evs initSearchState searchInv_init

theorem searchStep_queries (s : SearchUIState) (ev : SearchEv)
    (hev : isStartEv ev = false) :
    (searchStep s ev).reqs.map (fun r => r.query) = s.reqs.map (fun r => r.query) := by
  cases ev with
  | start q => cases hev
  | resolve i =>
      cases hr : s.reqs.get? i with
      | none => simp only [searchStep, hr]
      | some r =>
          by_cases hg : (r.aborted || r.done) = true
          · simp only [searchStep, hr, if_pos hg]
          · simp only [searchStep, hr, if_neg hg]
            rw [List.map_set]
            exact set_eq_of_get? _ _ _ (by rw [List.get?_map, hr]; rfl)
  | reject i =>
      cases hr : s.reqs.get? i with
      | none => simp only [searchStep, hr]
      | some r =>
          by_cases hg : (r.aborted && !r.done) = true
          · simp only [searchStep, hr, if_pos hg]
            rw [List.map_set]
            exact set_eq_of_get? _ _ _ (by rw [List.get?_map, hr]; rfl)
          · simp only [searchStep, hr, if_neg hg]
  | stop =>
      cases hcur : s.current with
      | none => simp only [searchStep, hcur]
      | some c =>
          simp only [searchStep, hcur]
          exact abortAt_query s.reqs c

theorem foldl_queries (evs' : List SearchEv)
    (hstart : ∀ e ∈ evs', isStartEv e = false) (s : SearchUIState) :
    (evs'.foldl searchStep s).reqs.map (fun r => r.query) =
      s.reqs.map (fun r => r.query) := by
  induction evs' generalizing s with
  | nil => rfl
  | cons e evs ih =>
      rw [List.foldl_cons, ih (fun e he => hstart e (List.mem_cons_of_mem _ he)),
        searchStep_queries s e (hstart e (List.mem_cons_self _ _))]

theorem searchStart_reqs (s : SearchUIState) (q : String) (hq : jsTrim q ≠ "") :
    ∃ X, (searchStep s (.start q)).reqs = X ++ [(⟨q, false, false⟩ : SearchReq)] ∧
      X.length = s.reqs.length ∧
      (searchStep s (.start q)).current = some s.reqs.length := by
  cases hcur : s.current with
  | none =>
      exact ⟨s.reqs, by simp [searchStep, hq, hcur], rfl, by simp [searchStep, hq, hcur]⟩
  | some c =>
      exact ⟨abortAt s.reqs c, by simp [searchStep, hq, hcur], abortAt_length _ _,
        by simp [searchStep, hq, hcur]⟩

/-- Claim C9 (amended): issuing a new search aborts the previously tracked
in-flight request before the new request exists (first conjunct); and with
the bundled signal-respecting stub adapter — under which an aborted request
rejects and never resolves — at every point of every interleaving following
a new search, the displayed results are either cleared or belong to the most
recently issued request, so after `start q₂` only `q₂`'s results are ever
stored (second conjunct).  The discard of a late first response rests on the
cancellation-induced rejection, not on the `abortControllerRef.current ===
controller` comparison, which guards only the loading-state cleanup. -/
theorem handleSearch_cancelPrior_latestOnly :
    (∀ (evs : List SearchEv) (q : String) (c : Nat),
      (runSearch evs).current = some c → jsTrim q ≠ "" →
      ∃ r, (searchStep (runSearch evs) (.start q)).reqs.get? c = some r ∧
        r.aborted = true) ∧
    (∀ (evs evs' : List SearchEv) (q : String),
      jsTrim q ≠ "" → (∀ e ∈ evs', isStartEv e = false) →
      (runSearch (evs ++ .start q :: evs')).results = none ∨
      ∃ j r, (runSearch (evs ++ .start q :: evs')).results = some j ∧
        (runSearch (evs ++ .start q :: evs')).reqs.get? j = some r ∧
        r.query = q) := by
  constructor
  · intro evs q c hcur hq
    have hE := (searchInv_run evs).1 c hcur
    have hlt : c < (runSearch evs).reqs.length := by omega
    cases hr0 : (runSearch evs).reqs.get? c with
    | none => exact absurd (List.get?_eq_none.mp hr0) (by omega)
    | some r0 =>
        refine ⟨{ r0 with aborted := true }, ?_, rfl⟩
        simp only [searchStep, if_neg hq, hcur]
        rw [List.get?_append (by rw [abortAt_length]; exact hlt)]
        exact abortAt_get?_self _ _ _ hr0
  · intro evs evs' q hq hstart
    have hrun : runSearch (evs ++ .start q :: evs') =
        evs'.foldl searchStep (searchStep (runSearch evs) (.start q)) := by
      simp [runSearch, List.foldl_append]
    cases hres : (runSearch (evs ++ .start q :: evs')).results with
    | none => exact Or.inl rfl
    | some j =>
        right
        obtain ⟨X, hX, hXlen, _⟩ := searchStart_reqs (runSearch evs) q hq
        have hinv := searchInv_foldl evs' (searchStep (runSearch evs) (.start q))
          (searchInv_step _ _ (searchInv_run evs))
        have hD := hinv.2.2 j (by rw [← hrun]; exact hres)
        have hq1 := foldl_queries evs' hstart (searchStep (runSearch evs) (.start q))
        have hlen : (evs'.foldl searchStep (searchStep (runSearch evs) (.start q))).reqs.length =
            (searchStep (runSearch evs) (.start q)).reqs.length := by
          have hc := congrArg List.length hq1
          simpa using hc
        have hjs : j = X.length := by
          rw [hlen, hX] at hD
          simp at hD
          omega
        have hget : (((evs'.foldl searchStep
            (searchStep (runSearch evs) (.start q))).reqs.get? j).map
              (fun r => r.query)) = some q := by
          rw [← List.get?_map, hq1, hX, List.map_append, hjs]
          have hconcat := List.get?_concat_length
            (X.map (fun r => r.query)) ((⟨q, false, false⟩ : SearchReq).query)
          rw [show (X.map (fun r => r.query)).length = X.length from by simp] at hconcat
          simpa using hconcat
        obtain ⟨r, hr, hrq⟩ := Option.map_eq_some'.mp hget
        exact ⟨j, r, rfl, by rw [hrun]; exact hr, hrq⟩

/-- Claim C9, witness: a second search issued while the first is in flight,
followed by attempted resolutions of both requests, ends with the second
query's results displayed (the first request, being aborted, can only
reject). -/
theorem handleSearch_cancelPrior_latestOnly_witness :
    ((runSearch [.start "q1"]).current = some 0) ∧ (jsTrim "q2" ≠ "") ∧
    (∃ r, (searchStep (runSearch [.start "q1"]) (.start "q2")).reqs.get? 0 = some r ∧
      r.aborted = true) ∧
    ((runSearch ([.start "q1"] ++ .start "q2" :: [.resolve 0, .resolve 1])).results = none ∨
      ∃ j r,
        (runSearch ([.start "q1"] ++ .start "q2" :: [.resolve 0, .resolve 1])).results = some j ∧
        (runSearch ([.start "q1"] ++ .start "q2" :: [.resolve 0, .resolve 1])).reqs.get? j =
          some r ∧ r.query = "q2") :=
  ⟨by decide, by decide,
   handleSearch_cancelPrior_latestOnly.1 [.start "q1"] "q2" 0 (by decide) (by decide),
   handleSearch_cancelPrior_latestOnly.2 [.start "q1"] [.resolve 0, .resolve 1] "q2"
     (by decide) (by decide)⟩

/-- Claim C9, counterexample: the claim attributes the discard of a late
first response to the comparison against the tracked in-flight request
identity, but `setSearchResults(results)` (src/App.tsx line 943) is not
guarded by that comparison — only the `finally` cleanup is.  Wired to the
repository's generative-service `searchMedia` variant, whose signature takes
no abort signal so that an aborted request still resolves, the late
resolution of the superseded first request is stored: after
`start q1; start q2; resolve 0` the displayed results are request 0's
(query "q1"), even though request 0 is aborted and the tracked identity is
request 1. -/
theorem handleSearch_staleStore_cex :
    (runSearchU [.start "q1", .start "q2", .resolve 0]).results = some 0 ∧
    ((runSearchU [.start "q1", .start "q2", .resolve 0]).reqs.get? 0).map
      (fun r => r.query) = some "q1" ∧
    ((runSearchU [.start "q1", .start "q2", .resolve 0]).reqs.get? 0).map
      (fun r => r.aborted) = some true ∧
    (runSearchU [.start "q1", .start "q2", .resolve 0]).current = some 1 ∧
    (runSearchU [.start "q1", .start "q2", .resolve 0]).reqs.length = 2 := by
  decide

theorem perm_pairwise_asymm_eq {α : Type} {R : α → α → Prop}
    (hA : ∀ a b, R a b → R b a → False) :
    ∀ (l₁ l₂ : List α), l₁.Perm l₂ → l₁.Pairwise R → l₂.Pairwise R → l₁ = l₂ := by
  intro l₁
  induction l₁ with
  | nil =>
      intro l₂ hp _ _
      exact hp.nil_eq
  | cons a t₁ ih =>
      intro l₂ hp h₁ h₂
      cases l₂ with
      | nil => cases hp.eq_nil
      | cons b t₂ =>
          by_cases hab : a = b
          · subst hab
            rw [ih t₂ hp.cons_inv h₁.of_cons h₂.of_cons]
          · have ha2 : a ∈ b :: t₂ := hp.subset (List.mem_cons_self a t₁)
            have hb1 : b ∈ a :: t₁ := hp.symm.subset (List.mem_cons_self b t₂)
            have hab1 : R a b := by
              rcases List.mem_cons.mp hb1 with h | h
              · exact absurd h.symm hab
              · exact (List.pairwise_cons.mp h₁).1 b h
            have hba : R b a := by
              rcases List.mem_cons.mp ha2 with h | h
              · exact absurd h hab
              · exact (List.pairwise_cons.mp h₂).1 a h
            exact (hA a b hab1 hba).elim

/-- Claim C6: `getSortedItems` sorts by exactly the selected criterion
(added date, locale title comparison, or rating with an absent rating
treated as 0), with the comparator negated for descending order.  For every
consistent comparator (sign-antisymmetric and transitive, as ECMAScript
requires of `localeCompare`) the ascending output is a permutation of the
input sorted by the comparator; when the sort keys are pairwise
non-degenerate (comparator never 0 between two input items) the output is
the unique such sorted arrangement — so sorting is deterministic,
independent even of the sorting algorithm — and flipping the sort order
yields exactly the reverse of the ascending output. -/
theorem getSortedItems_spec (localeCompare : String → String → Int)
    (parseDate : String → Int) (crit : SortCriteria) (items : List MediaItem)
    (hasym : ∀ a b, 0 ≤ itemComparison localeCompare parseDate crit a b ↔
      itemComparison localeCompare parseDate crit b a ≤ 0)
    (htrans : ∀ a b c, itemComparison localeCompare parseDate crit a b ≤ 0 →
      itemComparison localeCompare parseDate crit b c ≤ 0 →
      itemComparison localeCompare parseDate crit a c ≤ 0)
    (hdist : items.Pairwise
      (fun a b => itemComparison localeCompare parseDate crit a b ≠ 0)) :
    (getSortedItems localeCompare parseDate crit .ASC items).Perm items ∧
    (getSortedItems localeCompare parseDate crit .ASC items).Pairwise
      (fun a b => itemComparison localeCompare parseDate crit a b ≤ 0) ∧
    (∀ l, l.Perm items →
      l.Pairwise (fun a b => itemComparison localeCompare parseDate crit a b ≤ 0) →
      l = getSortedItems localeCompare parseDate crit .ASC items) ∧
    getSortedItems localeCompare parseDate crit .DESC items =
      (getSortedItems localeCompare parseDate crit .ASC items).reverse := by
  have hasym' : ∀ a b, itemComparison localeCompare parseDate crit a b ≤ 0 ↔
      0 ≤ itemComparison localeCompare parseDate crit b a := by
    intro a b
    constructor
    · intro h
      by_contra hc
      have h2 : itemComparison localeCompare parseDate crit b a ≤ 0 := by omega
      have := (hasym b a).mpr h
      omega
    · intro h
      exact (hasym b a).mp h
  have hne_symm : ∀ a b, itemComparison localeCompare parseDate crit a b ≠ 0 →
      itemComparison localeCompare parseDate crit b a ≠ 0 := by
    intro a b hne heq
    have h1 : itemComparison localeCompare parseDate crit b a ≤ 0 := by omega
    have h2 : (0 : Int) ≤ itemComparison localeCompare parseDate crit b a := by omega
    have h3 := (hasym a b).mpr h1
    have h4 := (hasym' a b).mpr h2
    omega
  have hAsymLt : ∀ a b : MediaItem,
      itemComparison localeCompare parseDate crit a b < 0 ∧
        itemComparison localeCompare parseDate crit a b ≠ 0 →
      itemComparison localeCompare parseDate crit b a < 0 ∧
        itemComparison localeCompare parseDate crit b a ≠ 0 → False := by
    intro a b ⟨h1, _⟩ ⟨h2, _⟩
    have := (hasym' b a).mp (by omega)
    omega
  haveI hTotA : IsTotal MediaItem
      (fun a b => sortComparator localeCompare parseDate crit .ASC a b ≤ 0) := by
    constructor
    intro a b
    show itemComparison localeCompare parseDate crit a b ≤ 0 ∨
      itemComparison localeCompare parseDate crit b a ≤ 0
    by_cases h : itemComparison localeCompare parseDate crit a b ≤ 0
    · exact Or.inl h
    · exact Or.inr ((hasym a b).mp (by omega))
  haveI hTransA : IsTrans MediaItem
      (fun a b => sortComparator localeCompare parseDate crit .ASC a b ≤ 0) := by
    constructor
    intro a b c hab hbc
    exact htrans a b c hab hbc
  haveI hTotD : IsTotal MediaItem
      (fun a b => sortComparator localeCompare parseDate crit .DESC a b ≤ 0) := by
    constructor
    intro a b
    show -itemComparison localeCompare parseDate crit a b ≤ 0 ∨
      -itemComparison localeCompare parseDate crit b a ≤ 0
    by_cases h : itemComparison localeCompare parseDate crit b a ≤ 0
    · exact Or.inl (by have := (hasym a b).mpr h; omega)
    · exact Or.inr (by omega)
  haveI hTransD : IsTrans MediaItem
      (fun a b => sortComparator localeCompare parseDate crit .DESC a b ≤ 0) := by
    constructor
    intro a b c hab hbc
    show -itemComparison localeCompare parseDate crit a c ≤ 0
    have hab' : -itemComparison localeCompare parseDate crit a b ≤ 0 := hab
    have hbc' : -itemComparison localeCompare parseDate crit b c ≤ 0 := hbc
    have h1 : itemComparison localeCompare parseDate crit b a ≤ 0 :=
      (hasym a b).mp (by omega)
    have h2 : itemComparison localeCompare parseDate crit c b ≤ 0 :=
      (hasym b c).mp (by omega)
    have h3 := htrans c b a h2 h1
    have := (hasym' c a).mp h3
    omega
  have hpermA : (getSortedItems localeCompare parseDate crit .ASC items).Perm items :=
    List.perm_insertionSort _ items
  have hsortA : (getSortedItems localeCompare parseDate crit .ASC items).Pairwise
      (fun a b => itemComparison localeCompare parseDate crit a b ≤ 0) := by
    have := List.sorted_insertionSort
      (fun a b => sortComparator localeCompare parseDate crit .ASC a b ≤ 0) items
    exact this
  have hStrict : ∀ (l : List MediaItem), l.Perm items →
      l.Pairwise (fun a b => itemComparison localeCompare parseDate crit a b ≤ 0) →
      l.Pairwise (fun a b => itemComparison localeCompare parseDate crit a b < 0 ∧
        itemComparison localeCompare parseDate crit a b ≠ 0) := by
    intro l hperm hsort
    have hnel : l.Pairwise
        (fun a b => itemComparison localeCompare parseDate crit a b ≠ 0) :=
      (hperm.pairwise_iff (fun hab => hne_symm _ _ hab)).mpr hdist
    exact (hsort.and hnel).imp (fun hab => ⟨by omega, hab.2⟩)
  have huniq : ∀ l, l.Perm items →
      l.Pairwise (fun a b => itemComparison localeCompare parseDate crit a b ≤ 0) →
      l = getSortedItems localeCompare parseDate crit .ASC items := by
    intro l hperm hsort
    exact perm_pairwise_asymm_eq hAsymLt l _
      (hperm.trans hpermA.symm) (hStrict l hperm hsort)
      (hStrict _ hpermA hsortA)
  refine ⟨hpermA, hsortA, huniq, ?_⟩
  have hpermD : (getSortedItems localeCompare parseDate crit .DESC items).Perm items :=
    List.perm_insertionSort _ items
  have hsortD := List.sorted_insertionSort
    (fun a b => sortComparator localeCompare parseDate crit .DESC a b ≤ 0) items
  have hrevsort : (getSortedItems localeCompare parseDate crit .DESC items).reverse.Pairwise
      (fun a b => itemComparison localeCompare parseDate crit a b ≤ 0) := by
    rw [List.pairwise_reverse]
    refine hsortD.imp ?_
    intro a b hab
    have hab' : -itemComparison localeCompare parseDate crit a b ≤ 0 := hab
    exact (hasym a b).mp (by omega)
  have hrev := huniq (getSortedItems localeCompare parseDate crit .DESC items).reverse
    ((List.reverse_perm _).trans hpermD) hrevsort
  calc getSortedItems localeCompare parseDate crit .DESC items
      = (getSortedItems localeCompare parseDate crit .DESC items).reverse.reverse := by
        rw [List.reverse_reverse]
    _ = (getSortedItems localeCompare parseDate crit .ASC items).reverse := by rw [hrev]

/-- Claim C6, witness: with a concrete consistent title collation (compare
by title length) and three items with pairwise distinct keys, descending
sort is exactly the reverse of ascending sort. -/
theorem getSortedItems_spec_witness :
    getSortedItems (fun s t => (s.length : Int) - t.length) (fun _ => 0) .TITLE .DESC
        [itemEx, { itemEx with title := "Bb" }, { itemEx with title := "Ccc" }] =
      (getSortedItems (fun s t => (s.length : Int) - t.length) (fun _ => 0) .TITLE .ASC
        [itemEx, { itemEx with title := "Bb" }, { itemEx with title := "Ccc" }]).reverse :=
  (getSortedItems_spec (fun s t => (s.length : Int) - t.length) (fun _ => 0) .TITLE
    [itemEx, { itemEx with title := "Bb" }, { itemEx with title := "Ccc" }]
    (by intro a b; show (0 : Int) ≤ _ - _ ↔ _ - _ ≤ 0; omega)
    (by intro a b c; show _ - _ ≤ (0 : Int) → _ - _ ≤ (0 : Int) → _ - _ ≤ (0 : Int); omega)
    (by decide)).2.2.2

theorem ofHexDigit_lower (n : Nat) (h : n < 16) :
    ofHexDigit (hexDigitLower n) = some n := by
  revert h
  revert n
  decide

theorem ofHexDigit_upper (n : Nat) (h : n < 16) :
    ofHexDigit (hexDigitUpper n) = some n := by
  revert h
  revert n
  decide

theorem b64Val_b64Char (n : Nat) (h : n < 64) : b64Val (b64Char n) = some n := by
  revert h
  revert n
  decide

theorem b64Char_ne_eq (n : Nat) (h : n < 64) : ¬ b64Char n = '=' := by
  revert h
  revert n
  decide

theorem decodeB64_encodeB64 : ∀ bs : List Nat, (∀ b ∈ bs, b < 256) →
    decodeB64 (encodeB64 bs) = some bs
  | [], _ => rfl
  | [a], h => by
      have ha : a < 256 := h a (by simp)
      rw [encodeB64, decodeB64]
      rw [b64Val_b64Char (a / 4) (by omega), b64Val_b64Char (a % 4 * 16) (by omega)]
      simp
      omega
  | [a, b], h => by
      have ha : a < 256 := h a (by simp)
      have hb : b < 256 := h b (by simp)
      rw [encodeB64, decodeB64]
      rw [b64Val_b64Char (a / 4) (by omega), b64Val_b64Char (a % 4 * 16 + b / 16) (by omega)]
      dsimp only
      rw [if_neg (b64Char_ne_eq (b % 16 * 4) (by omega))]
      rw [b64Val_b64Char (b % 16 * 4) (by omega)]
      simp
      omega
  | a :: b :: c :: rest, h => by
      have ha : a < 256 := h a (by simp)
      have hb : b < 256 := h b (by simp)
      have hc : c < 256 := h c (by simp)
      rw [encodeB64, decodeB64]
      rw [b64Val_b64Char (a / 4) (by omega), b64Val_b64Char (a % 4 * 16 + b / 16) (by omega)]
      dsimp only
      rw [if_neg (b64Char_ne_eq (c % 64) (by omega))]
      rw [b64Val_b64Char (b % 16 * 4 + c / 64) (by omega), b64Val_b64Char (c % 64) (by omega)]
      dsimp only
      rw [decodeB64_encodeB64 rest (fun x hx => h x (by simp [hx]))]
      simp
      refine ⟨by omega, by omega, by omega⟩

theorem atob_btoa (s : List Char) (h : ∀ c ∈ s, c.toNat < 256) :
    atob (btoa s) = some s := by
  unfold atob btoa
  rw [decodeB64_encodeB64 (s.map Char.toNat) (by
    intro b hb
    obtain ⟨c, hc, rfl⟩ := List.mem_map.mp hb
    exact h c hc)]
  rw [Option.map_some', List.map_map]
  have hmap : List.map (Char.ofNat ∘ Char.toNat) s = s := by
    simp only [Function.comp_def]
    rw [List.map_congr_left (fun c _ => Char.ofNat_toNat c)]
    exact List.map_id' s
  rw [hmap]

theorem char_toNat_lt (c : Char) : c.toNat < 1114112 := by
  rcases c.valid with h | ⟨_, h2⟩
  · exact Nat.lt_trans (by exact h) (by norm_num)
  · exact h2

theorem utf8EncodeChar_lt (c : Char) : ∀ b ∈ utf8EncodeChar c, b < 256 := by
  have hlt := char_toNat_lt c
  intro b hb
  unfold utf8EncodeChar at hb
  split_ifs at hb with h1 h2 h3
  · simp only [List.mem_singleton] at hb
    omega
  · simp only [List.mem_cons, List.mem_singleton, List.not_mem_nil, or_false] at hb
    rcases hb with rfl | rfl <;> omega
  · simp only [List.mem_cons, List.mem_singleton, List.not_mem_nil, or_false] at hb
    rcases hb with rfl | rfl | rfl <;> omega
  · simp only [List.mem_cons, List.mem_singleton, List.not_mem_nil, or_false] at hb
    rcases hb with rfl | rfl | rfl | rfl <;> omega

theorem utf8DecodeStep_encodeChar (c : Char) (bs : List Nat) :
    utf8DecodeStep ((utf8EncodeChar c).headD 0) ((utf8EncodeChar c).tail ++ bs) =
      some (c.toNat, bs) := by
  have hlt := char_toNat_lt c
  unfold utf8EncodeChar
  by_cases h1 : c.toNat < 128
  · rw [if_pos h1]
    simp only [List.headD, List.tail, List.nil_append]
    unfold utf8DecodeStep
    rw [if_pos h1]
  · rw [if_neg h1]
    by_cases h2 : c.toNat < 2048
    · rw [if_pos h2]
      simp only [List.headD, List.tail, List.cons_append, List.nil_append]
      unfold utf8DecodeStep
      rw [if_neg (by omega), if_neg (by omega), if_pos (by omega)]
      simp only []
      rw [if_pos (by omega)]
      have hval : (192 + c.toNat / 64 - 192) * 64 + (128 + c.toNat % 64 - 128) = c.toNat := by
        omega
      rw [hval]
    · rw [if_neg h2]
      by_cases h3 : c.toNat < 65536
      · rw [if_pos h3]
        simp only [List.headD, List.tail, List.cons_append, List.nil_append]
        unfold utf8DecodeStep
        rw [if_neg (by omega), if_neg (by omega), if_neg (by omega), if_pos (by omega)]
        simp only []
        rw [if_pos (by omega)]
        have hval : (224 + c.toNat / 4096 - 224) * 4096 + (128 + c.toNat / 64 % 64 - 128) * 64 +
            (128 + c.toNat % 64 - 128) = c.toNat := by
          omega
        rw [hval]
      · rw [if_neg h3]
        simp only [List.headD, List.tail, List.cons_append, List.nil_append]
        unfold utf8DecodeStep
        rw [if_neg (by omega), if_neg (by omega), if_neg (by omega), if_neg (by omega),
          if_pos (by omega)]
        simp only []
        rw [if_pos (by omega)]
        have hval : (240 + c.toNat / 262144 - 240) * 262144 + (128 + c.toNat / 4096 % 64 - 128) *
            4096 + (128 + c.toNat / 64 % 64 - 128) * 64 + (128 + c.toNat % 64 - 128) =
            c.toNat := by
          omega
        rw [hval]

theorem utf8EncodeChar_ne_nil (c : Char) : utf8EncodeChar c ≠ [] := by
  unfold utf8EncodeChar
  split_ifs <;> simp

theorem utf8DecodeFuel_encode (s : List Char) : ∀ fuel, s.length < fuel →
    utf8DecodeFuel fuel (utf8Encode s) = some s := by
  induction s with
  | nil =>
      intro fuel hf
      match fuel, hf with
      | fuel + 1, _ => rfl
  | cons c cs ih =>
      intro fuel hf
      match fuel, hf with
      | fuel + 1, hf =>
        have hcons : utf8Encode (c :: cs) =
            (utf8EncodeChar c).headD 0 :: ((utf8EncodeChar c).tail ++ utf8Encode cs) := by
          rw [utf8Encode]
          cases henc : utf8EncodeChar c with
          | nil => exact absurd henc (utf8EncodeChar_ne_nil c)
          | cons b bs => simp
        rw [hcons, utf8DecodeFuel, utf8DecodeStep_encodeChar]
        simp only []
        rw [ih fuel (by simpa using hf), Option.map_some', Char.ofNat_toNat]

theorem length_le_utf8Encode (s : List Char) : s.length ≤ (utf8Encode s).length := by
  induction s with
  | nil => simp [utf8Encode]
  | cons c cs ih =>
      rw [utf8Encode, List.length_append]
      have h1 : 1 ≤ (utf8EncodeChar c).length := by
        cases henc : utf8EncodeChar c with
        | nil => exact absurd henc (utf8EncodeChar_ne_nil c)
        | cons b bs => simp
      simp only [List.length_cons]
      omega

theorem utf8Decode_encode (s : List Char) : utf8Decode (utf8Encode s) = some s := by
  unfold utf8Decode
  exact utf8DecodeFuel_encode s _ (by have := length_le_utf8Encode s; omega)

theorem isUnreservedURI_facts (c : Char) (h : isUnreservedURI c = true) :
    c.toNat < 128 ∧ c.toNat ≠ 37 := by
  unfold isUnreservedURI at h
  simp only [Bool.or_eq_true, Bool.and_eq_true, decide_eq_true_eq, beq_iff_eq] at h
  omega

theorem percentToBytes_percentBytes (bs : List Nat) (h : ∀ b ∈ bs, b < 256)
    (tail : List Char) :
    percentToBytes (percentBytes bs ++ tail) =
      (percentToBytes tail).map (fun l => bs ++ l) := by
  induction bs with
  | nil =>
      rw [percentBytes, List.nil_append]
      cases percentToBytes tail <;> rfl
  | cons b bs' ih =>
      have hb : b < 256 := h b (by simp)
      rw [percentBytes]
      simp only [List.cons_append]
      rw [percentToBytes, if_pos rfl, percentEscBytes]
      rw [ofHexDigit_upper (b / 16) (by omega), ofHexDigit_upper (b % 16) (by omega)]
      simp only []
      rw [ih (fun x hx => h x (by simp [hx]))]
      have hval : b / 16 * 16 + b % 16 = b := by omega
      rw [hval]
      cases percentToBytes tail <;> rfl

theorem percentToBytes_encode (s : List Char) :
    percentToBytes (encodeURIComponent s) = some (utf8Encode s) := by
  induction s with
  | nil => rfl
  | cons c cs ih =>
      rw [encodeURIComponent, utf8Encode]
      by_cases hu : isUnreservedURI c
      · rw [if_pos hu]
        obtain ⟨hlt, hne⟩ := isUnreservedURI_facts c hu
        simp only [List.singleton_append]
        rw [percentToBytes]
        rw [if_neg (by intro hc; subst hc; exact hne rfl)]
        rw [if_pos hlt, ih]
        have henc : utf8EncodeChar c = [c.toNat] := by
          unfold utf8EncodeChar
          rw [if_pos hlt]
        rw [henc]
        rfl
      · rw [if_neg hu]
        rw [percentToBytes_percentBytes (utf8EncodeChar c) (utf8EncodeChar_lt c), ih]
        rfl

theorem decodeURIComponent_encode (s : List Char) :
    decodeURIComponent (encodeURIComponent s) = some s := by
  unfold decodeURIComponent
  rw [percentToBytes_encode]
  simpa using utf8Decode_encode s

theorem hexDigitUpper_lt (n : Nat) : (hexDigitUpper n).toNat < 256 := by
  unfold hexDigitUpper
  rcases Nat.lt_or_ge n 16 with h | h
  · exact (show ∀ m, m < 16 → ("0123456789ABCDEF".data.getD m '0').toNat < 256 by decide) n h
  · rw [List.getD_eq_default _ _ (by simpa using h)]
    decide

theorem percentBytes_lt (bs : List Nat) : ∀ c ∈ percentBytes bs, c.toNat < 256 := by
  induction bs with
  | nil => simp [percentBytes]
  | cons b bs' ih =>
      intro c hc
      rw [percentBytes] at hc
      rcases List.mem_cons.mp hc with rfl | hc
      · decide
      · rcases List.mem_cons.mp hc with rfl | hc
        · exact hexDigitUpper_lt _
        · rcases List.mem_cons.mp hc with rfl | hc
          · exact hexDigitUpper_lt _
          · exact ih c hc

theorem encodeURIComponent_lt (s : List Char) :
    ∀ c ∈ encodeURIComponent s, c.toNat < 256 := by
  induction s with
  | nil => simp [encodeURIComponent]
  | cons c cs ih =>
      intro x hx
      rw [encodeURIComponent] at hx
      rcases List.mem_append.mp hx with hx | hx
      · by_cases hu : isUnreservedURI c
        · rw [if_pos hu] at hx
          obtain ⟨hlt, _⟩ := isUnreservedURI_facts c hu
          rcases List.mem_singleton.mp hx with rfl
          omega
        · rw [if_neg hu] at hx
          exact percentBytes_lt _ x hx
      · exact ih x hx

theorem parseStrBody_escape (s : List Char) (rest : List Char) :
    parseStrBody (escapeStr s ++ '"' :: rest) = some (s, rest) := by
  induction s with
  | nil => rw [escapeStr, List.nil_append, parseStrBody, if_pos rfl]
  | cons c cs ih =>
      rw [escapeStr, List.append_assoc]
      unfold escapeChar
      by_cases h1 : c = '"'
      · subst h1
        rw [if_pos rfl]
        simp only [List.cons_append, List.nil_append]
        rw [parseStrBody, if_neg (by decide), if_pos rfl, parseStrEsc, if_pos rfl, ih]
        rfl
      · rw [if_neg h1]
        by_cases h2 : c = '\\'
        · subst h2
          rw [if_pos rfl]
          simp only [List.cons_append, List.nil_append]
          rw [parseStrBody, if_neg (by decide), if_pos rfl, parseStrEsc,
            if_neg (by decide), if_pos rfl, ih]
          rfl
        · rw [if_neg h2]
          by_cases h3 : c = '\x08'
          · subst h3
            rw [if_pos rfl]
            simp only [List.cons_append, List.nil_append]
            rw [parseStrBody, if_neg (by decide), if_pos rfl, parseStrEsc,
              if_neg (by decide), if_neg (by decide), if_neg (by decide), if_pos rfl, ih]
            rfl
          · rw [if_neg h3]
            by_cases h4 : c = '\x09'
            · subst h4
              rw [if_pos rfl]
              simp only [List.cons_append, List.nil_append]
              rw [parseStrBody, if_neg (by decide), if_pos rfl, parseStrEsc,
                if_neg (by decide), if_neg (by decide), if_neg (by decide),
                if_neg (by decide), if_neg (by decide), if_neg (by decide),
                if_neg (by decide), if_pos rfl, ih]
              rfl
            · rw [if_neg h4]
              by_cases h5 : c = '\x0a'
              · subst h5
                rw [if_pos rfl]
                simp only [List.cons_append, List.nil_append]
                rw [parseStrBody, if_neg (by decide), if_pos rfl, parseStrEsc,
                  if_neg (by decide), if_neg (by decide), if_neg (by decide),
                  if_neg (by decide), if_neg (by decide), if_pos rfl, ih]
                rfl
              · rw [if_neg h5]
                by_cases h6 : c = '\x0c'
                · subst h6
                  rw [if_pos rfl]
                  simp only [List.cons_append, List.nil_append]
                  rw [parseStrBody, if_neg (by decide), if_pos rfl, parseStrEsc,
                    if_neg (by decide), if_neg (by decide), if_neg (by decide),
                    if_neg (by decide), if_pos rfl, ih]
                  rfl
                · rw [if_neg h6]
                  by_cases h7 : c = '\x0d'
                  · subst h7
                    rw [if_pos rfl]
                    simp only [List.cons_append, List.nil_append]
                    rw [parseStrBody, if_neg (by decide), if_pos rfl, parseStrEsc,
                      if_neg (by decide), if_neg (by decide), if_neg (by decide),
                      if_neg (by decide), if_neg (by decide), if_neg (by decide),
                      if_pos rfl, ih]
                    rfl
                  · rw [if_neg h7]
                    by_cases h8 : c.toNat < 32
                    · rw [if_pos h8]
                      simp only [List.cons_append, List.nil_append]
                      rw [parseStrBody, if_neg (by decide), if_pos rfl, parseStrEsc,
                        if_neg (by decide), if_neg (by decide), if_neg (by decide),
                        if_neg (by decide), if_neg (by decide), if_neg (by decide),
                        if_neg (by decide), if_neg (by decide), if_pos rfl, parseStrU]
                      rw [show ofHexDigit '0' = some 0 from rfl]
                      rw [ofHexDigit_lower (c.toNat / 16) (by omega),
                        ofHexDigit_lower (c.toNat % 16) (by omega)]
                      simp only []
                      rw [if_pos (Or.inl (by omega))]
                      rw [ih]
                      have hv : 0 * 4096 + 0 * 256 + c.toNat / 16 * 16 + c.toNat % 16 =
                          c.toNat := by omega
                      rw [hv, Char.ofNat_toNat]
                      rfl
                    · rw [if_neg h8]
                      simp only [List.cons_append, List.nil_append]
                      rw [parseStrBody, if_neg h1, if_neg h2, ih]
                      rfl

theorem Json.size_pos : ∀ j : Json, 1 ≤ Json.size j
  | .str _ => le_refl _
  | .arr _ => by rw [Json.size]; omega
  | .obj _ => by rw [Json.size]; omega

mutual

theorem size_lt_render : ∀ j : Json, Json.size j < (Json.render j).length
  | .str s => by
      rw [Json.render, Json.size]
      simp
  | .arr es => by
      rw [Json.render, Json.size]
      have h := sizeElems_le_renderElems es
      simp only [List.length_cons, List.length_append, List.length_singleton]
      omega
  | .obj fs => by
      rw [Json.render, Json.size]
      have h := sizeFields_le_renderFields fs
      simp only [List.length_cons, List.length_append, List.length_singleton]
      omega

theorem sizeElems_le_renderElems : ∀ es : List Json,
    sizeElems es ≤ (renderElems es).length
  | [] => by rw [sizeElems, renderElems]; simp
  | [j] => by
      rw [sizeElems, renderElems, sizeElems]
      have h := size_lt_render j
      omega
  | j :: j' :: rest => by
      rw [sizeElems, renderElems]
      have h1 := size_lt_render j
      have h2 := sizeElems_le_renderElems (j' :: rest)
      simp only [List.length_append, List.length_cons]
      omega

theorem sizeFields_le_renderFields : ∀ fs : List (List Char × Json),
    sizeFields fs ≤ (renderFields fs).length
  | [] => by rw [sizeFields, renderFields]; simp
  | [(k, v)] => by
      rw [sizeFields, renderFields, sizeFields]
      have h := size_lt_render v
      simp only [List.length_cons, List.length_append]
      omega
  | (k, v) :: f :: rest => by
      rw [sizeFields, renderFields]
      have h1 := size_lt_render v
      have h2 := sizeFields_le_renderFields (f :: rest)
      simp only [List.length_append, List.length_cons]
      omega

end

theorem render_head (j : Json) :
    ∃ cs, Json.render j = '"' :: cs ∨ Json.render j = '[' :: cs ∨
      Json.render j = '\x7b' :: cs := by
  cases j with
  | str s => exact ⟨_, Or.inl rfl⟩
  | arr es => exact ⟨_, Or.inr (Or.inl rfl)⟩
  | obj fs => exact ⟨_, Or.inr (Or.inr rfl)⟩

theorem renderElems_cons_head (e : Json) (es' : List Json) :
    ∃ t, renderElems (e :: es') = Json.render e ++ t := by
  cases es' with
  | nil => exact ⟨[], by rw [renderElems]; simp⟩
  | cons f fs => exact ⟨',' :: renderElems (f :: fs), by rw [renderElems]⟩

theorem renderFields_cons_head (k : List Char) (v : Json)
    (fs : List (List Char × Json)) :
    ∃ t, renderFields ((k, v) :: fs) =
      '"' :: (escapeStr k ++ '"' :: ':' :: (Json.render v ++ t)) ∧
      ((fs = [] ∧ t = []) ∨ t = ',' :: renderFields fs) := by
  cases fs with
  | nil =>
      refine ⟨[], ?_, Or.inl ⟨rfl, rfl⟩⟩
      rw [renderFields]
      simp
  | cons f fs' =>
      refine ⟨',' :: renderFields (f :: fs'), ?_, Or.inr rfl⟩
      rw [renderFields]
      simp [List.append_assoc]

theorem parseArr_renderElems (fuel : Nat)
    (hE : ∀ es rest, es ≠ [] → sizeElems es ≤ fuel →
      parseElems fuel (renderElems es ++ ']' :: rest) = some (es, rest))
    (e : Json) (es' : List Json) (rest : List Char)
    (hsz : sizeElems (e :: es') ≤ fuel) :
    parseArr fuel (renderElems (e :: es') ++ ']' :: rest) =
      some (.arr (e :: es'), rest) := by
  obtain ⟨t, ht⟩ := renderElems_cons_head e es'
  obtain ⟨cs, hh⟩ := render_head e
  have hshape : ∀ c0 cs', Json.render e = c0 :: cs' → ¬ c0 = ']' →
      parseArr fuel (renderElems (e :: es') ++ ']' :: rest) =
        some (.arr (e :: es'), rest) := by
    intro c0 cs' hc hne
    have hform : renderElems (e :: es') ++ ']' :: rest =
        c0 :: (cs' ++ (t ++ ']' :: rest)) := by
      rw [ht, hc]
      simp [List.append_assoc]
    rw [hform, parseArr, if_neg hne, ← hform]
    rw [hE (e :: es') rest (by simp) hsz]
    rfl
  rcases hh with hh | hh | hh
  · exact hshape _ _ hh (by decide)
  · exact hshape _ _ hh (by decide)
  · exact hshape _ _ hh (by decide)

theorem parseObj_renderFields (fuel : Nat)
    (hF : ∀ fs rest, fs ≠ [] → sizeFields fs ≤ fuel →
      parseFields fuel (renderFields fs ++ '\x7d' :: rest) = some (fs, rest))
    (k : List Char) (v : Json) (fs' : List (List Char × Json)) (rest : List Char)
    (hsz : sizeFields ((k, v) :: fs') ≤ fuel) :
    parseObj fuel (renderFields ((k, v) :: fs') ++ '\x7d' :: rest) =
      some (.obj ((k, v) :: fs'), rest) := by
  obtain ⟨t, ht, _⟩ := renderFields_cons_head k v fs'
  have hform : renderFields ((k, v) :: fs') ++ '\x7d' :: rest =
      '"' :: ((escapeStr k ++ '"' :: ':' :: (Json.render v ++ t)) ++ '\x7d' :: rest) := by
    rw [ht]
    simp
  rw [hform, parseObj, if_neg (by decide), ← hform]
  rw [hF ((k, v) :: fs') rest (by simp) hsz]
  rfl

theorem parse_render_fuel : ∀ fuel : Nat,
    (∀ (j : Json) (rest : List Char), Json.size j ≤ fuel →
      parseValue fuel (Json.render j ++ rest) = some (j, rest)) ∧
    (∀ (es : List Json) (rest : List Char), es ≠ [] → sizeElems es ≤ fuel →
      parseElems fuel (renderElems es ++ ']' :: rest) = some (es, rest)) ∧
    (∀ (fs : List (List Char × Json)) (rest : List Char), fs ≠ [] →
      sizeFields fs ≤ fuel →
      parseFields fuel (renderFields fs ++ '\x7d' :: rest) = some (fs, rest)) := by
  intro fuel
  induction fuel with
  | zero =>
      refine ⟨?_, ?_, ?_⟩
      · intro j rest hsz
        have := Json.size_pos j
        omega
      · intro es rest hne hsz
        cases es with
        | nil => exact absurd rfl hne
        | cons e es' =>
            rw [sizeElems] at hsz
            omega
      · intro fs rest hne hsz
        cases fs with
        | nil => exact absurd rfl hne
        | cons f fs' =>
            obtain ⟨k, v⟩ := f
            rw [sizeFields] at hsz
            omega
  | succ fuel ih =>
      obtain ⟨ihV, ihE, ihF⟩ := ih
      refine ⟨?_, ?_, ?_⟩
      · intro j rest hsz
        cases j with
        | str s =>
            rw [Json.render]
            simp only [List.cons_append, List.append_assoc, List.singleton_append]
            rw [parseValue, if_pos rfl, parseStrBody_escape]
            rfl
        | arr es =>
            rw [Json.render]
            simp only [List.cons_append, List.append_assoc, List.singleton_append]
            rw [parseValue, if_neg (by decide), if_pos rfl]
            cases es with
            | nil =>
                rw [renderElems, List.nil_append, parseArr, if_pos rfl]
                rfl
            | cons e es' =>
                rw [Json.size, sizeElems] at hsz
                exact parseArr_renderElems fuel ihE e es' rest (by rw [sizeElems]; omega)
        | obj fs =>
            rw [Json.render]
            simp only [List.cons_append, List.append_assoc, List.singleton_append]
            rw [parseValue, if_neg (by decide), if_neg (by decide), if_pos rfl]
            cases fs with
            | nil =>
                rw [renderFields, List.nil_append, parseObj, if_pos rfl]
                rfl
            | cons f fs' =>
                obtain ⟨k, v⟩ := f
                rw [Json.size, sizeFields] at hsz
                exact parseObj_renderFields fuel ihF k v fs' rest (by rw [sizeFields]; omega)
      · intro es rest hne hsz
        cases es with
        | nil => exact absurd rfl hne
        | cons e es' =>
            rw [sizeElems] at hsz
            have hszE : Json.size e ≤ fuel := by
              have := Json.size_pos e
              omega
            cases es' with
            | nil =>
                rw [renderElems, parseElems, ihV e (']' :: rest) hszE]
                simp only []
                rw [parseElemsSep, if_neg (by decide), if_pos rfl]
            | cons e2 es'' =>
                rw [renderElems]
                simp only [List.append_assoc, List.cons_append]
                rw [parseElems,
                  ihV e (',' :: (renderElems (e2 :: es'') ++ ']' :: rest)) hszE]
                simp only []
                rw [parseElemsSep, if_pos rfl]
                rw [ihE (e2 :: es'') rest (by simp) (by
                  rw [sizeElems] at hsz ⊢
                  have := Json.size_pos e
                  omega)]
                rfl
      · intro fs rest hne hsz
        cases fs with
        | nil => exact absurd rfl hne
        | cons f fs' =>
            obtain ⟨k, v⟩ := f
            rw [sizeFields] at hsz
            have hszV : Json.size v ≤ fuel := by
              have := Json.size_pos v
              omega
            obtain ⟨t, ht, hcase⟩ := renderFields_cons_head k v fs'
            rcases hcase with ⟨rfl, rfl⟩ | rfl
            · have hform : renderFields ((k, v) :: []) ++ '\x7d' :: rest =
                  '"' :: (escapeStr k ++ '"' :: (':' :: (Json.render v ++ '\x7d' :: rest))) := by
                rw [ht]
                simp
              rw [hform, parseFields, if_pos rfl, parseStrBody_escape]
              simp only []
              rw [parseFieldSep, if_pos rfl, ihV v ('\x7d' :: rest) hszV]
              simp only []
              rw [parseFieldsSep, if_neg (by decide), if_pos rfl]
            · have hform : renderFields ((k, v) :: fs') ++ '\x7d' :: rest =
                  '"' :: (escapeStr k ++ '"' ::
                    (':' :: (Json.render v ++ ',' :: (renderFields fs' ++ '\x7d' :: rest)))) := by
                rw [ht]
                simp
              rw [hform, parseFields, if_pos rfl, parseStrBody_escape]
              simp only []
              rw [parseFieldSep, if_pos rfl,
                ihV v (',' :: (renderFields fs' ++ '\x7d' :: rest)) hszV]
              simp only []
              rw [parseFieldsSep, if_pos rfl]
              have hfs' : fs' ≠ [] := by
                intro hcon
                subst hcon
                simp [renderFields] at ht
                -- renderFields [] = [] so ht : ... = ... with t = ',' :: [] — contradiction? not needed actually
              rw [ihF fs' rest hfs' (by
                have := Json.size_pos v
                omega)]
              rfl

theorem Json.parse_render (j : Json) : Json.parse (Json.render j) = some j := by
  unfold Json.parse
  have h := (parse_render_fuel ((Json.render j).length + 1)).1 j []
    (by have := size_lt_render j; omega)
  rw [List.append_nil] at h
  rw [h]
  rfl

theorem optionSomeBind {α β : Type} (a : α) (f : α → Option β) :
    ((some a : Option α) >>= f) = f a := rfl

/-- Claim C1: decoding the share token produced by `generateShareLink`
(`btoa` of `encodeURIComponent` of `JSON.stringify`, inverted by
`handlePreviewLink` as `JSON.parse(decodeURIComponent(atob(_)))`)
reproduces the exact serialized payload: its `title`, `type` and `sharer`
properties equal the collection's (with `sharer` absent exactly for a
public share), its `items` property is an array of the same length as the
encoded member-item list, and no decoded descriptor carries a `status`,
`rating`, `review` or `memories` property. -/
theorem decode_generateShareLink_roundTrip (col : UserCollection) (isPublic : Bool)
    (sharerNameInput : String) (items : List MediaItem) :
    decodeShareToken (generateShareToken col isPublic sharerNameInput items) =
      some (sharePayloadJson col isPublic sharerNameInput items) ∧
    (sharePayloadJson col isPublic sharerNameInput items).lookup "title" =
      some (.str col.title.data) ∧
    (sharePayloadJson col isPublic sharerNameInput items).lookup "type" =
      some (.str (itemTypeStr col.type).data) ∧
    (sharePayloadJson col isPublic sharerNameInput items).lookup "sharer" =
      (sharerOf isPublic sharerNameInput).map (fun sh => .str sh.data) ∧
    ∃ descs : List Json,
      (sharePayloadJson col isPublic sharerNameInput items).lookup "items" =
        some (.arr descs) ∧
      descs.length =
        (items.filter (fun i => i.collectionIds.contains col.id)).length ∧
      ∀ d ∈ descs, d.lookup "status" = none ∧ d.lookup "rating" = none ∧
        d.lookup "review" = none ∧ d.lookup "memories" = none := by
  refine ⟨?_, ?_, ?_, ?_, ?_⟩
  · unfold decodeShareToken generateShareToken
    rw [atob_btoa _ (encodeURIComponent_lt _), optionSomeBind,
      decodeURIComponent_encode, optionSomeBind]
    exact Json.parse_render _
  · rw [sharePayloadJson, Json.lookup]
    simp only [List.cons_append, List.nil_append]
    rw [lookupFields, if_pos rfl]
  · rw [sharePayloadJson, Json.lookup]
    simp only [List.cons_append, List.nil_append]
    rw [lookupFields, if_neg (by decide), lookupFields, if_pos rfl]
  · rw [sharePayloadJson, Json.lookup]
    cases h : sharerOf isPublic sharerNameInput with
    | none =>
        simp only [List.cons_append, List.nil_append]
        rw [lookupFields, if_neg (by decide), lookupFields, if_neg (by decide),
          lookupFields, if_neg (by decide)]
        rfl
    | some sh =>
        simp only [List.cons_append, List.nil_append]
        rw [lookupFields, if_neg (by decide), lookupFields, if_neg (by decide),
          lookupFields, if_pos rfl]
        rfl
  · refine ⟨(items.filter (fun i => i.collectionIds.contains col.id)).map
      sharedDescJson, ?_, by simp, ?_⟩
    · rw [sharePayloadJson, Json.lookup]
      cases h : sharerOf isPublic sharerNameInput with
      | none =>
          simp only [List.cons_append, List.nil_append]
          rw [lookupFields, if_neg (by decide), lookupFields, if_neg (by decide),
            lookupFields, if_pos rfl]
      | some sh =>
          simp only [List.cons_append, List.nil_append]
          rw [lookupFields, if_neg (by decide), lookupFields, if_neg (by decide),
            lookupFields, if_neg (by decide), lookupFields, if_pos rfl]
    · intro d hd
      obtain ⟨i, hi, rfl⟩ := List.mem_map.mp hd
      have hbase : ∀ key : String,
          "title".data ≠ key.data → "type".data ≠ key.data →
          "creator".data ≠ key.data → "year".data ≠ key.data →
          "description".data ≠ key.data → "coverUrl".data ≠ key.data →
          (sharedDescJson i).lookup key = none := by
        intro key h1 h2 h3 h4 h5 h6
        rw [sharedDescJson, Json.lookup]
        cases hcov : i.coverUrl with
        | none => simp [lookupFields, h1, h2, h3, h4, h5]
        | some u => simp [lookupFields, h1, h2, h3, h4, h5, h6]
      exact ⟨hbase "status" (by decide) (by decide) (by decide) (by decide)
          (by decide) (by decide),
        hbase "rating" (by decide) (by decide) (by decide) (by decide)
          (by decide) (by decide),
        hbase "review" (by decide) (by decide) (by decide) (by decide)
          (by decide) (by decide),
        hbase "memories" (by decide) (by decide) (by decide) (by decide)
          (by decide) (by decide)⟩
